import Mathlib

/-!
Shallow embedding of the domain-marketplace catalog engine of `domainsniper`
(`src/lib/server/external-domains.ts` and `src/lib/server/soinda-store.ts`),
together with theorems settling the frozen claims about it.

Modelling conventions, used throughout:
* JS strings are Lean `String`s; `trim` / `toLowerCase` are `jsTrim` / `jsLower`
  (ASCII case mapping, which is all the repository exercises).
* JSON payloads (`unknown` in the source) are `JsonVal`; JSON numbers are `ℚ`
  (all numbers in play are finite doubles).
* ISO-8601 timestamps are modelled by an injective, order-preserving codec on
  milliseconds (`msToIso` / `parseDateMs`): a timestamp string is the decimal
  millisecond value.  No claim depends on the concrete date format.
* SQL tables are lists of rows; the primary-key upsert, `WHERE` filters,
  `LIKE`, `json_extract` and `COALESCE` are embedded directly.  Where SQL
  leaves an order unspecified (`GROUP BY` bucket order, `ORDER BY` ties) the
  embedding fixes the deterministic refinement used by SQLite's stable scan.
-/

namespace DomainSniper

/-! ### JS string primitives -/

/-- Whitespace for `String.prototype.trim` (space, tab, CR, LF). -/
def wsChar (c : Char) : Bool := c.isWhitespace

/-- Character-list form of `String.prototype.trim`: drop whitespace from both
ends. -/
def trimList (l : List Char) : List Char :=
  ((l.dropWhile wsChar).reverse.dropWhile wsChar).reverse

/-- Model of JS `String.prototype.trim`. -/
def jsTrim (s : String) : String := ⟨trimList s.data⟩

/-- Model of JS `String.prototype.toLowerCase` (ASCII case mapping). -/
def jsLower (s : String) : String := ⟨s.data.map Char.toLower⟩

/-- Case-sensitive substring test (JS `String.prototype.includes`). -/
def includesStr (hay needle : String) : Bool := decide (needle.data <:+: hay.data)

/-- JS `String.prototype.split` on a single-character class: split at every
separator, keeping empty pieces. -/
def splitListOn (p : Char → Bool) : List Char → List (List Char)
  | [] => [[]]
  | c :: rest =>
    let r := splitListOn p rest
    if p c then [] :: r
    else
      match r with
      | [] => [[c]]
      | h :: t => (c :: h) :: t

/-- JS `domain.split(".")`. -/
def jsSplitDot (s : String) : List String :=
  (splitListOn (fun c => c == '.') s.data).map (fun l => (⟨l⟩ : String))

/-- Case-insensitive (ASCII) substring test: the direct reading of the spec's
"case-insensitive substring match". -/
def containsCI (hay needle : String) : Bool :=
  decide (needle.data.map Char.toLower <:+: hay.data.map Char.toLower)

/-! ### SQLite `LIKE` -/

/-- One pattern character against one subject character: SQLite `LIKE` is
ASCII case-insensitive. -/
def likeCharEq (p c : Char) : Bool := p.toLower == c.toLower

/-- Does `f` accept some suffix of the list? (Used for the `%` wildcard.) -/
def anySuffix (f : List Char → Bool) : List Char → Bool
  | [] => f []
  | c :: hs => f (c :: hs) || anySuffix f hs

/-- SQLite `LIKE` pattern matching: `%` matches any run of characters, `_`
matches exactly one character, any other character matches itself up to ASCII
case. -/
def likeMatch : List Char → List Char → Bool
  | [], h => h.isEmpty
  | p :: ps, h =>
    if p = '%' then anySuffix (likeMatch ps) h
    else if p = '_' then
      match h with
      | [] => false
      | _ :: hs => likeMatch ps hs
    else
      match h with
      | [] => false
      | c :: hs => likeCharEq p c && likeMatch ps hs

/-- The `LIKE '%' || needle || '%'` test the store builds for every substring
filter. -/
def likeContains (hay needle : String) : Bool :=
  likeMatch ('%' :: needle.data ++ ['%']) hay.data

/-! ### A stable sort

JS `Array.prototype.sort` is a stable sort by a comparator; for a total
preorder every stable sort produces the same list, so it is modelled by a
structural insertion sort (kernel-computable, unlike the library's
merge sort). -/

/-- Insert `a` before the first element `b` with `le a b`. -/
def orderedInsertB (le : α → α → Bool) (a : α) : List α → List α
  | [] => [a]
  | b :: l => if le a b then a :: b :: l else b :: orderedInsertB le a l

/-- Stable sort by a boolean comparator. -/
def insertionSortB (le : α → α → Bool) : List α → List α
  | [] => []
  | a :: l => orderedInsertB le a (insertionSortB le l)

/-! ### The domain regex

`DOMAIN_REGEX = /\b([a-z0-9](?:[a-z0-9-]{0,61}[a-z0-9])?\.)+[a-z]{2,}\b/i`,
always applied to a lower-cased string.  A match is a token of dot-separated
labels (each 1–63 characters of `[a-z0-9-]`, first and last alphanumeric)
ending in an alphabetic label of length ≥ 2, delimited by word boundaries.
`findDomainInText` is modelled as the leftmost match with greedy extent. -/

/-- JS `\w` word character, for `\b` word boundaries. -/
def wordChar (c : Char) : Bool := c.isAlphanum || c == '_'

/-- Characters allowed inside a label by the regex. -/
def labelChar (c : Char) : Bool := c.isAlphanum || c == '-'

/-- A non-final label: `[a-z0-9](?:[a-z0-9-]{0,61}[a-z0-9])?`. -/
def validLabel (l : List Char) : Bool :=
  decide (1 ≤ l.length) && decide (l.length ≤ 63) && l.all labelChar &&
    (match l.head? with
     | some c => c.isAlphanum
     | none => false) &&
    (match l.getLast? with
     | some c => c.isAlphanum
     | none => false)

/-- A full token: `(label\.)+[a-z]{2,}`. -/
def validDomainToken (t : List Char) : Bool :=
  let parts := splitListOn (fun c => c == '.') t
  decide (2 ≤ parts.length) && parts.dropLast.all validLabel &&
    (match parts.getLast? with
     | some lastPart => decide (2 ≤ lastPart.length) && lastPart.all Char.isAlpha
     | none => false)

/-- The slice `cs[i..j)` is a regex match, including both `\b` boundaries. -/
def domainMatchAt (cs : List Char) (i j : Nat) : Bool :=
  decide (i < j) && decide (j ≤ cs.length) &&
    validDomainToken ((cs.drop i).take (j - i)) &&
    (i == 0 || !wordChar (cs.getD (i - 1) ' ')) &&
    (j == cs.length || !wordChar (cs.getD j ' '))

/-- End position of the longest match starting at `i`, if any. -/
def bestMatchEnd (cs : List Char) (i : Nat) : Option Nat :=
  ((List.range (cs.length + 1)).filter (fun j => domainMatchAt cs i j)).max?

/-- Model of `findDomainInText`: lower-case the text, return the leftmost
(greedy-extent) `DOMAIN_REGEX` match if any. -/
def findDomainInText (s : String) : Option String :=
  let cs := (jsLower s).data
  (List.range cs.length).findSome? (fun i =>
    (bestMatchEnd cs i).map (fun j => String.mk ((cs.drop i).take (j - i))))

/-! ### JSON values -/

/-- JSON payloads as delivered by the upstream API. -/
inductive JsonVal where
  | null
  | bool (b : Bool)
  | num (q : ℚ)
  | str (s : String)
  | arr (items : List JsonVal)
  | obj (fields : List (String × JsonVal))
deriving Repr

/-- JS property lookup `item[key]`; `none` models `undefined`. -/
def jlookup (fields : List (String × JsonVal)) (k : String) : Option JsonVal :=
  (fields.find? (fun f => f.1 == k)).map (·.2)

/-- The source's `asRecord`, as the key/value list of the JS object view: JSON
objects are themselves, arrays are JS objects keyed by decimal indices, and
every other value (including `null`) becomes `{}`. -/
def asRecordKV : JsonVal → List (String × JsonVal)
  | .obj fs => fs
  | .arr xs => xs.enum.map (fun p => (toString p.1, p.2))
  | _ => []

mutual

/-- Minified JSON text of a value (what SQLite's `json_extract` returns for
nested arrays/objects).  String escaping of embedded quotes is not modelled —
no claim exercises it. -/
def jsonMinify : JsonVal → String
  | .null => "null"
  | .bool b => if b then "true" else "false"
  | .num q => if q.den == 1 then toString q.num else toString q
  | .str s => "\"" ++ s ++ "\""
  | .arr xs => "[" ++ jsonMinifyList xs ++ "]"
  | .obj fs => "\x7b" ++ jsonMinifyFields fs ++ "\x7d"

/-- Comma-joined items. -/
def jsonMinifyList : List JsonVal → String
  | [] => ""
  | [x] => jsonMinify x
  | x :: xs => jsonMinify x ++ "," ++ jsonMinifyList xs

/-- Comma-joined `"key":value` members. -/
def jsonMinifyFields : List (String × JsonVal) → String
  | [] => ""
  | [f] => "\"" ++ f.1 ++ "\":" ++ jsonMinify f.2
  | f :: fs => "\"" ++ f.1 ++ "\":" ++ jsonMinify f.2 ++ "," ++ jsonMinifyFields fs

end

/-- JS `a ?? b` over a list of candidate fields: the first key whose value is
present and non-null. -/
def coalesceKeys (item : List (String × JsonVal)) : List String → Option JsonVal
  | [] => none
  | k :: ks =>
    match jlookup item k with
    | some .null => coalesceKeys item ks
    | none => coalesceKeys item ks
    | some v => some v

/-! ### Row extractor (`external-domains.ts`) -/

/-- Does a lower-cased key suggest a domain column? (`key.includes("domain") ||
key.includes("dominio") || key.includes("host")`). -/
def domainishKey (k : String) : Bool :=
  includesStr k "domain" || includesStr k "dominio" || includesStr k "host"

/-- Is this element a string containing a domain-shaped substring? -/
def strWithDomain : JsonVal → Bool
  | .str s => (findDomainInText s).isSome
  | _ => false

/-- Does some field of the record hold a domain-shaped string value? -/
def someValueWithDomain (row : List (String × JsonVal)) : Bool :=
  row.any (fun f => strWithDomain f.2)

/-- The source's `scoreArray` loop: `+2` and `continue` for a string element
with a domain substring; otherwise view the element as a record, skip it when
empty, `+3` when some lower-cased key is domain-ish, and `+1` when some field
value is a domain-shaped string. -/
def scoreArray (items : List JsonVal) : Nat :=
  items.foldl
    (fun score item =>
      if strWithDomain item then score + 2
      else
        let row := asRecordKV item
        if row.isEmpty then score
        else
          let score := if row.any (fun f => domainishKey (jsLower f.1)) then score + 3 else score
          if someValueWithDomain row then score + 1 else score)
    0

/-- The source's `collectArrays`, with the remaining depth budget as explicit
fuel (the source checks `depth > 5` at entry, so a call at depth `d` has
budget `6 - d`): gather every array in the payload, without descending into
arrays. -/
def collectArraysF : Nat → JsonVal → List (List JsonVal)
  | 0, _ => []
  | fuel + 1, p =>
    match p with
    | .arr xs => [xs]
    | .obj fs => (fs.map (fun f => collectArraysF fuel f.2)).flatten
    | _ => []

/-- The top-level `collectArrays(payload)` call (depth 0, budget 6). -/
def collectArrays (payload : JsonVal) : List (List JsonVal) := collectArraysF 6 payload

/-- Ranking comparator of `extractRows` (`b.score - a.score ||
b.items.length - a.items.length`, ascending by the comparator sign). -/
def rankLe (a b : List JsonVal × Nat) : Bool :=
  decide (b.2 < a.2) || (b.2 == a.2 && decide (b.1.length ≤ a.1.length))

/-- The source's `extractRows`: rank all collected arrays by score then length
and return the top one (both branches of the final `if` return `ranked[0]`). -/
def extractRows (payload : JsonVal) : List JsonVal :=
  let arrays := collectArrays payload
  if arrays.isEmpty then []
  else
    let ranked := insertionSortB rankLe (arrays.map (fun items => (items, scoreArray items)))
    match ranked with
    | [] => []
    | top :: _ => if top.2 > 0 then top.1 else top.1

/-! ### Field extraction and coercions -/

/-- Priority list of likely domain-holding field names. -/
def domainFieldCandidates : List String :=
  ["domain", "dominio", "domain_name", "nombre_dominio", "name", "hostname",
   "host", "fqdn", "url", "website", "com_domain"]

/-- The candidate-loop body of `extractDomainField`: a key hits when its value
is a string whose regex match — or, failing that, its trimmed lower-cased
self — contains a dot. -/
def candidateHit (item : List (String × JsonVal)) (key : String) : Option String :=
  match jlookup item key with
  | some (.str v) =>
    let found := (findDomainInText v).getD (jsLower (jsTrim v))
    if found.data.contains '.' then some found else none
  | _ => none

/-- The source's `extractDomainField`: first candidate key whose string value
yields a dot-containing domain (regex match, else the trimmed lower-cased
value); falling back to the first domain-shaped substring in any string
field. -/
def extractDomainField (item : List (String × JsonVal)) : Option String :=
  let firstPass := domainFieldCandidates.findSome? (candidateHit item)
  match firstPass with
  | some d => some d
  | none =>
    item.findSome? (fun f =>
      match f.2 with
      | .str v => findDomainInText v
      | _ => none)

/-- Digit run to a natural number. -/
def digitsToNat (l : List Char) : Nat :=
  l.foldl (fun n c => n * 10 + (c.toNat - 48)) 0

/-- Unsigned decimal part of the JS `Number(string)` model: digits with an
optional fractional part (`12`, `12.`, `12.5`, `.5`). -/
def parseUnsignedDec (t : List Char) : Option ℚ :=
  let intPart := t.takeWhile Char.isDigit
  let rest := t.dropWhile Char.isDigit
  match rest with
  | [] => if intPart.isEmpty then none else some (digitsToNat intPart)
  | '.' :: frac =>
    if frac.all Char.isDigit && !(intPart.isEmpty && frac.isEmpty) then
      some ((digitsToNat intPart : ℚ) + (digitsToNat frac : ℚ) / (10 : ℚ) ^ frac.length)
    else none
  | _ => none

/-- Model of JS `Number(string)` on the decimal literals the repository feeds
it (prices, `Retry-After` seconds): surrounding whitespace is trimmed, the
empty string is 0 as in JS, and an optionally signed decimal literal parses to
its value.  Exotic `Number` syntax (exponents, hex, `Infinity`) is outside the
model; a non-conforming string is `none` (NaN). -/
def jsNumber? (s : String) : Option ℚ :=
  let t := (jsTrim s).data
  if t.isEmpty then some 0
  else
    match t with
    | '-' :: rest => (parseUnsignedDec rest).map (fun q => -q)
    | '+' :: rest => parseUnsignedDec rest
    | _ => parseUnsignedDec t

/-- JS `value.replace(",", ".")`: replace the first comma only. -/
def replaceFirstComma (s : String) : String :=
  ⟨go s.data⟩
where
  go : List Char → List Char
    | [] => []
    | ',' :: rest => '.' :: rest
    | c :: rest => c :: go rest

/-- The source's `coerceNumber`: finite numbers pass through; strings parse
after the comma-to-dot substitution; everything else is `null`. -/
def coerceNumber : JsonVal → Option ℚ
  | .num q => some q
  | .str s => jsNumber? (replaceFirstComma s)
  | _ => none

/-- The source's `coerceBoolean`: booleans pass through, numbers test `> 0`,
and strings are matched (trimmed, lower-cased) against two locale token
lists. -/
def coerceBoolean : JsonVal → Option Bool
  | .bool b => some b
  | .num q => some (decide (0 < q))
  | .str s =>
    let n := jsLower (jsTrim s)
    if ["true", "1", "yes", "si", "s√≠", "available", "libre"].contains n then some true
    else if ["false", "0", "no", "occupied", "ocupado", "taken"].contains n then some false
    else none
  | _ => none

/-! ### Normalization -/

/-- One normalized catalog record (`MarketplaceDomain` in the source). -/
structure MarketplaceDomain where
  domain : String
  tld : String
  available : Option Bool
  price : Option ℚ
  currency : Option String
  status : Option String
  raw : List (String × JsonVal)
deriving Repr

/-- The source's `normalizeDomain`: a string row keeps its regex match (or its
trimmed lower-cased self) when it contains a dot; an object row goes through
`extractDomainField` and the field-alias coercions, retaining the whole object
as `raw`. -/
def normalizeDomain (row : JsonVal) : Option MarketplaceDomain :=
  match row with
  | .str s =>
    let domain := (findDomainInText s).getD (jsLower (jsTrim s))
    if domain.data.contains '.' then
      let parts := jsSplitDot domain
      some
        { domain := domain
          tld := (parts.getLast?).getD ""
          available := none
          price := none
          currency := none
          status := none
          raw := [("value", .str s)] }
    else none
  | _ =>
    let item := asRecordKV row
    match extractDomainField item with
    | none => none
    | some rawDomain =>
      let domain := jsLower (jsTrim rawDomain)
      let parts := jsSplitDot domain
      some
        { domain := domain
          tld := (parts.getLast?).getD ""
          available :=
            (coalesceKeys item ["available", "is_available", "isAvailable", "com_available",
              "disponible", "libre", "disponibilidad"]).bind coerceBoolean
          price :=
            (coalesceKeys item ["price", "com_price", "amount", "precio", "registration_price",
              "registrationPrice", "sale_price", "salePrice"]).bind coerceNumber
          currency :=
            match coalesceKeys item ["currency", "currencyCode", "currency_code", "moneda"] with
            | some (.str c) => some c
            | _ => none
          status :=
            match coalesceKeys item ["status", "state", "pricingMode", "estado",
                "availability_status"] with
            | some (.str c) => some c
            | _ => none
          raw := item }

/-- The source's `parseTotal`: `total ?? total_count ?? totalCount ?? count ??
pagination.total ?? meta.total`, coerced to a number. -/
def parseTotal (payload : JsonVal) : Option ℚ :=
  let data := asRecordKV payload
  let chain :=
    match coalesceKeys data ["total", "total_count", "totalCount", "count"] with
    | some v => some v
    | none =>
      match jlookup (asRecordKV ((jlookup data "pagination").getD .null)) "total" with
      | some v => if v matches .null then
          jlookup (asRecordKV ((jlookup data "meta").getD .null)) "total"
        else some v
      | none => jlookup (asRecordKV ((jlookup data "meta").getD .null)) "total"
  chain.bind coerceNumber

/-! ### Page fetcher (`fetchExternalDomainsRaw` / `fetchExternalDomainsPage`) -/

/-- One HTTP response of the upstream API: a status, the parsed `Retry-After`
header (`none` models an absent or non-numeric header, i.e. `Number(...)` not
finite), and the JSON body. -/
structure HttpResp where
  status : Nat
  retryAfter : Option ℚ
  payload : JsonVal

/-- JS `response.ok`: status in [200, 300). -/
def respOk (r : HttpResp) : Bool := decide (200 ≤ r.status) && decide (r.status < 300)

/-- The error taxonomy of the fetcher, by throw site. -/
inductive RawError where
  | rejected (status : Nat)
  | rateLimited
  | unavailable (lastStatus : Nat)
deriving DecidableEq, Repr

/-- The literal messages thrown by the source (the sync engine classifies
failures by scanning these messages). -/
def rawErrorMessage : RawError → String
  | .rejected s => "Soinda API error (" ++ toString s ++ ")"
  | .rateLimited => "Soinda rate limit (429). Reintenta en unos minutos."
  | .unavailable s =>
    "Soinda API no disponible (" ++ (if s == 0 then "sin status" else toString s) ++ ")"

/-- Retry attempt ceiling (`MAX_RETRIES`). -/
def MAX_RETRIES : Nat := 8

/-- Wait (ms) after a 429 at the given attempt: the `Retry-After` seconds
clamped to [1s, 120s] when present, else `2000 · 2^attempt` capped at 120s. -/
def wait429 (attempt : Nat) (retryAfter : Option ℚ) : ℚ :=
  match retryAfter with
  | some sec => min 120000 (max 1000 (sec * 1000))
  | none => min 120000 (2000 * 2 ^ attempt)

/-- Wait (ms) after a 5xx at the given attempt: `1000 · 2^attempt` capped at
30s. -/
def wait5xx (attempt : Nat) : ℚ := min 30000 (1000 * 2 ^ attempt)

/-- Error produced after the retry loop exhausts: rate-limited when the last
status was 429, unavailable otherwise. -/
def exhaustedError (lastStatus : Nat) : RawError :=
  if lastStatus == 429 then .rateLimited else .unavailable lastStatus

/-- The retry loop of `fetchExternalDomainsRaw`.  `resp` is the response to
each attempt (0-based); `fuel` is the number of loop iterations left, i.e.
`MAX_RETRIES + 1 - attempt`.  Returns the outcome together with the list of
back-off waits performed, in order. -/
def fetchRawGo (resp : Nat → HttpResp) :
    Nat → Nat → Nat → List ℚ → Except RawError JsonVal × List ℚ
  | 0, _, lastStatus, waits => (.error (exhaustedError lastStatus), waits)
  | fuel + 1, attempt, _, waits =>
    let r := resp attempt
    if respOk r then (.ok r.payload, waits)
    else if r.status == 429 then
      fetchRawGo resp fuel (attempt + 1) r.status (waits ++ [wait429 attempt r.retryAfter])
    else if 500 ≤ r.status then
      fetchRawGo resp fuel (attempt + 1) r.status (waits ++ [wait5xx attempt])
    else (.error (.rejected r.status), waits)

/-- The source's `fetchExternalDomainsRaw` (attempts 0..`MAX_RETRIES`,
`lastStatus` initially 0). -/
def fetchExternalDomainsRaw (resp : Nat → HttpResp) : Except RawError JsonVal × List ℚ :=
  fetchRawGo resp (MAX_RETRIES + 1) 0 0 []

/-- Keep the first occurrence of each element (`Set` insertion order,
`arr.indexOf(item) === index` dedup). -/
def dedupKeepFirst (l : List String) : List String :=
  l.foldl (fun acc x => if acc.contains x then acc else acc ++ [x]) []

/-- String comparator for the source's `localeCompare` sorts, modelled as
code-point order. -/
def strLeB (a b : String) : Bool := decide (a ≤ b)

/-- Field-name discovery of `fetchExternalDomainsPage`: the sorted set of raw
keys across the page's normalized records. -/
def pageFields (data : List MarketplaceDomain) : List String :=
  insertionSortB strLeB (dedupKeepFirst (data.flatMap (fun d => d.raw.map (·.1))))

/-- Result of one `fetchExternalDomainsPage` call. -/
structure PageResult where
  data : List MarketplaceDomain
  fields : List String
  total : Option ℚ
  hasMore : Bool
  sourceCount : Nat
deriving Repr

/-- The pure part of `fetchExternalDomainsPage`, applied to the fetched
payload: extract rows, normalize (dropping nulls), discover fields, parse the
total, and set `hasMore := rows.length >= perPage`. -/
def processPage (payload : JsonVal) (perPage : Nat) : PageResult :=
  let rows := extractRows payload
  let data := rows.filterMap normalizeDomain
  { data := data
    fields := pageFields data
    total := parseTotal payload
    hasMore := decide (perPage ≤ rows.length)
    sourceCount := rows.length }

/-! ### Catalog store (`soinda-store.ts`)

The SQLite and PostgreSQL variants of `soinda-store.ts` implement the same
logic over the same two tables; the embedding below covers both at the level
the claims are stated.  A stored row's `raw_json` column (JSON text) is
modelled as the parsed object it round-trips to. -/

/-- One row of the `soinda_domains` table.  `available` models the
`INTEGER NULL` 1/0/NULL column; `price` the `REAL NULL` column. -/
structure DbRow where
  domain : String
  tld : String
  available : Option Bool
  price : Option ℚ
  currency : Option String
  status : Option String
  raw_json : List (String × JsonVal)
  updated_at : String
deriving Repr

/-- The row the upsert statement writes for a normalized record at `nowIso`. -/
def rowOfItem (it : MarketplaceDomain) (nowIso : String) : DbRow :=
  { domain := it.domain
    tld := it.tld
    available := it.available
    price := it.price
    currency := it.currency
    status := it.status
    raw_json := it.raw
    updated_at := nowIso }

/-- Primary-key lookup in the table. -/
def lookupRow (rows : List DbRow) (d : String) : Option DbRow :=
  rows.find? (fun r => r.domain == d)

/-- One `INSERT ... ON CONFLICT(domain) DO UPDATE` statement: replace the row
with the same key in place, else append. -/
def upsertOne (rows : List DbRow) (r : DbRow) : List DbRow :=
  if rows.any (fun x => x.domain == r.domain) then
    rows.map (fun x => if x.domain == r.domain then r else x)
  else rows ++ [r]

/-- The source's `upsertMany`: upsert every item of the batch in order, all
stamped with the same `nowIso`. -/
def upsertMany (rows : List DbRow) (items : List MarketplaceDomain) (nowIso : String) :
    List DbRow :=
  items.foldl (fun acc it => upsertOne acc (rowOfItem it nowIso)) rows

/-- The page loop's store writes over a list of pages (each page a batch),
with a fixed timestamp. -/
def runPages (rows : List DbRow) (pages : List (List MarketplaceDomain)) (nowIso : String) :
    List DbRow :=
  pages.foldl (fun acc pg => upsertMany acc pg nowIso) rows

/-! ### Filters and the query engine -/

/-- The filter options shared by `querySoindaDomains` and
`querySoindaAnalytics` (absent options are `none`). -/
structure QueryFilters where
  q : Option String
  tld : Option String
  available : Option Bool
  columnFilters : List (String × String)

/-- Normalization applied to every filter string: `value.trim().toLowerCase()`. -/
def filterNeedle (value : String) : String := jsLower (jsTrim value)

/-- SQLite `json_extract(raw_json, '$."field"')` rendered as SQL text, for the
`LOWER(COALESCE(..., ''))` filter expression: JSON strings are themselves,
booleans are 1/0, `null` is SQL NULL.  Numbers print exactly for integers
(non-integer numeric raw fields are printed in fraction notation — a
representation detail no claim exercises); arrays and objects keep their
structure (SQLite would return their JSON text). -/
def sqlJsonText : JsonVal → Option String
  | .null => none
  | .str s => some s
  | .bool b => some (if b then "1" else "0")
  | .num q => some (if q.den == 1 then toString q.num else toString q)
  | .arr xs => some (jsonMinify (.arr xs))
  | .obj fs => some (jsonMinify (.obj fs))

/-- The `WHERE` clause built by `buildFilterWhere`, as a row predicate:
`LOWER(domain) LIKE '%q%'`, `LOWER(tld) = tld`, `available = 1/0`, and for
each non-empty column filter `LOWER(COALESCE(json_extract(raw_json, field),
'')) LIKE '%needle%'` (the `domain` pseudo-field filtering the domain column
instead). -/
def rowMatchesSql (f : QueryFilters) (r : DbRow) : Bool :=
  let q := filterNeedle (f.q.getD "")
  let tld := filterNeedle (f.tld.getD "")
  (q == "" || likeContains (jsLower r.domain) q) &&
  (tld == "" || jsLower r.tld == tld) &&
  (match f.available with
   | some true => r.available == some true
   | some false => r.available == some false
   | none => true) &&
  f.columnFilters.all (fun kv =>
    let needle := filterNeedle kv.2
    needle == "" ||
      (if kv.1 == "domain" then likeContains (jsLower r.domain) needle
       else likeContains (jsLower (((jlookup r.raw_json kv.1).bind sqlJsonText).getD "")) needle))

/-- The spec's filter predicate, evaluated directly against the stored field
values: plain case-insensitive substring containment in place of `LIKE`
patterns, otherwise the same clauses. -/
def specMatches (f : QueryFilters) (r : DbRow) : Bool :=
  let q := filterNeedle (f.q.getD "")
  let tld := filterNeedle (f.tld.getD "")
  (q == "" || containsCI (jsLower r.domain) q) &&
  (tld == "" || jsLower r.tld == tld) &&
  (match f.available with
   | some true => r.available == some true
   | some false => r.available == some false
   | none => true) &&
  f.columnFilters.all (fun kv =>
    let needle := filterNeedle kv.2
    needle == "" ||
      (if kv.1 == "domain" then containsCI (jsLower r.domain) needle
       else containsCI (jsLower (((jlookup r.raw_json kv.1).bind sqlJsonText).getD "")) needle))

/-- SQL sort values: NULL sorts before numbers, numbers before text. -/
inductive SqlSortVal where
  | vnull
  | vnum (q : ℚ)
  | vtext (s : String)

/-- SQLite ordering on sort values. -/
def leSqlVal : SqlSortVal → SqlSortVal → Bool
  | .vnull, _ => true
  | _, .vnull => false
  | .vnum a, .vnum b => decide (a ≤ b)
  | .vnum _, .vtext _ => true
  | .vtext _, .vnum _ => false
  | .vtext a, .vtext b => decide (a ≤ b)

/-- The fixed sortable base columns. -/
def baseSortable : List String :=
  ["domain", "tld", "available", "price", "currency", "status"]

/-- Safe field-name validation for raw sort keys (`^[a-zA-Z0-9_]+$`). -/
def sortIdent (s : String) : Bool :=
  !s.data.isEmpty && s.data.all (fun c => c.isAlphanum || c == '_')

/-- The `ORDER BY` key of a row for a validated sort column: `available` and
`price` sort on their numeric value, other base columns and raw fields on
`LOWER(COALESCE(..., ''))`. -/
def sortValOf (sortBy : String) (r : DbRow) : SqlSortVal :=
  if sortBy == "available" then
    match r.available with
    | none => .vnull
    | some b => .vnum (if b then 1 else 0)
  else if sortBy == "price" then
    match r.price with
    | none => .vnull
    | some q => .vnum q
  else if sortBy == "domain" then .vtext (jsLower r.domain)
  else if sortBy == "tld" then .vtext (jsLower r.tld)
  else if sortBy == "currency" then .vtext (jsLower (r.currency.getD ""))
  else if sortBy == "status" then .vtext (jsLower (r.status.getD ""))
  else .vtext (jsLower (((jlookup r.raw_json sortBy).bind sqlJsonText).getD ""))

/-- Row comparator realizing the `ORDER BY` clause `querySoindaDomains`
builds: a validated sort key with the requested direction, falling back to
`domain ASC` for invalid keys. -/
def queryOrder (sortBy sortDir : Option String) (a b : DbRow) : Bool :=
  let dirDesc := sortDir == some "desc"
  let requested := jsTrim (sortBy.getD "domain")
  if baseSortable.contains requested || sortIdent requested then
    if dirDesc then leSqlVal (sortValOf requested b) (sortValOf requested a)
    else leSqlVal (sortValOf requested a) (sortValOf requested b)
  else leSqlVal (sortValOf "domain" a) (sortValOf "domain" b)

/-- Full-table scan of all distinct raw field names (`collectAllFields`),
sorted. -/
def collectAllFields (rows : List DbRow) : List String :=
  insertionSortB strLeB (dedupKeepFirst (rows.flatMap (fun r => r.raw_json.map (·.1))))

/-- Options of `querySoindaDomains`. -/
structure QueryOpts where
  page : Nat
  perPage : Nat
  q : Option String
  tld : Option String
  available : Option Bool
  columnFilters : List (String × String)
  sortBy : Option String
  sortDir : Option String

/-- The filter part of the options. -/
def QueryOpts.filters (o : QueryOpts) : QueryFilters :=
  { q := o.q, tld := o.tld, available := o.available, columnFilters := o.columnFilters }

/-- Result of `querySoindaDomains`. -/
structure QueryOut where
  data : List DbRow
  fields : List String
  total : Nat
  hasMore : Bool

/-- The source's `querySoindaDomains` against a table state: `COUNT(*)` and
the row page share the same `WHERE`; `offset = (page - 1) * perPage`;
`hasMore = offset + perPage < total`. -/
def querySoindaDomains (opts : QueryOpts) (rows : List DbRow) : QueryOut :=
  let matched := rows.filter (rowMatchesSql opts.filters)
  let offset := (opts.page - 1) * opts.perPage
  let sorted := insertionSortB (queryOrder opts.sortBy opts.sortDir) matched
  { data := (sorted.drop offset).take opts.perPage
    fields := collectAllFields rows
    total := matched.length
    hasMore := decide (offset + opts.perPage < matched.length) }

/-! ### A mini JSON parser

`splitTechstack` re-parses JSON-encoded strings found inside raw fields
(`JSON.parse`).  The parser below models `JSON.parse` on the grammar JSON
actually has; recursion is fueled (any fuel at least the input length
suffices, and the wrapper provides it). -/

/-- JSON whitespace skip. -/
def skipWsJ : List Char → List Char :=
  List.dropWhile (fun c => c == ' ' || c == '\t' || c == '\n' || c == '\r')

/-- Hex digit value. -/
def hexVal (c : Char) : Option Nat :=
  if c.isDigit then some (c.toNat - 48)
  else if 'a' ≤ c && c ≤ 'f' then some (c.toNat - 87)
  else if 'A' ≤ c && c ≤ 'F' then some (c.toNat - 55)
  else none

/-- Single-character JSON string escapes. -/
def jsonEscapeChar : Char → Option Char
  | '"' => some '"'
  | '\\' => some '\\'
  | '/' => some '/'
  | 'b' => some (Char.ofNat 8)
  | 'f' => some (Char.ofNat 12)
  | 'n' => some '\n'
  | 'r' => some '\r'
  | 't' => some '\t'
  | _ => none

/-- Parse the remainder of a JSON string (after the opening quote). -/
def parseJsonStr : Nat → List Char → Option (List Char × List Char)
  | 0, _ => none
  | fuel + 1, cs =>
    match cs with
    | [] => none
    | '"' :: rest => some ([], rest)
    | '\\' :: 'u' :: h1 :: h2 :: h3 :: h4 :: rest =>
      (hexVal h1).bind (fun v1 =>
        (hexVal h2).bind (fun v2 =>
          (hexVal h3).bind (fun v3 =>
            (hexVal h4).bind (fun v4 =>
              (parseJsonStr fuel rest).map (fun p =>
                (Char.ofNat (((v1 * 16 + v2) * 16 + v3) * 16 + v4) :: p.1, p.2))))))
    | '\\' :: e :: rest =>
      (jsonEscapeChar e).bind (fun c =>
        (parseJsonStr fuel rest).map (fun p => (c :: p.1, p.2)))
    | c :: rest => (parseJsonStr fuel rest).map (fun p => (c :: p.1, p.2))

/-- Parse a JSON exponent suffix applied to `base`. -/
def parseExp (base : ℚ) (r : List Char) : Option (ℚ × List Char) :=
  let eneg := r.head? == some '-'
  let r1 := if r.head? == some '-' || r.head? == some '+' then r.tail else r
  let ds := r1.takeWhile Char.isDigit
  if ds.isEmpty then none
  else
    let e := digitsToNat ds
    some (if eneg then base / (10 : ℚ) ^ e else base * (10 : ℚ) ^ e, r1.dropWhile Char.isDigit)

/-- Parse a JSON number. -/
def parseJsonNum (cs : List Char) : Option (JsonVal × List Char) :=
  let signNeg := cs.head? == some '-'
  let cs1 := if signNeg then cs.tail else cs
  let intPart := cs1.takeWhile Char.isDigit
  let cs2 := cs1.dropWhile Char.isDigit
  if intPart.isEmpty then none
  else
    let step2 : Option (ℚ × List Char) :=
      match cs2 with
      | '.' :: r =>
        let frac := r.takeWhile Char.isDigit
        if frac.isEmpty then none
        else
          some ((digitsToNat intPart : ℚ) + (digitsToNat frac : ℚ) / (10 : ℚ) ^ frac.length,
            r.dropWhile Char.isDigit)
      | _ => some ((digitsToNat intPart : ℚ), cs2)
    step2.bind (fun p =>
      let withExp : Option (ℚ × List Char) :=
        match p.2 with
        | 'e' :: r => parseExp p.1 r
        | 'E' :: r => parseExp p.1 r
        | _ => some p
      withExp.map (fun q => (.num (if signNeg then -q.1 else q.1), q.2)))

mutual

/-- Parse one JSON value. -/
def parseJsonVal : Nat → List Char → Option (JsonVal × List Char)
  | 0, _ => none
  | fuel + 1, cs =>
    match skipWsJ cs with
    | 'n' :: 'u' :: 'l' :: 'l' :: rest => some (.null, rest)
    | 't' :: 'r' :: 'u' :: 'e' :: rest => some (.bool true, rest)
    | 'f' :: 'a' :: 'l' :: 's' :: 'e' :: rest => some (.bool false, rest)
    | '"' :: rest => (parseJsonStr fuel rest).map (fun p => (.str ⟨p.1⟩, p.2))
    | '[' :: rest =>
      match skipWsJ rest with
      | ']' :: rest2 => some (.arr [], rest2)
      | rest2 => (parseJsonItems fuel rest2).map (fun p => (.arr p.1, p.2))
    | '{' :: rest =>
      match skipWsJ rest with
      | '}' :: rest2 => some (.obj [], rest2)
      | rest2 => (parseJsonFields fuel rest2).map (fun p => (.obj p.1, p.2))
    | rest => parseJsonNum rest

/-- Parse the comma-separated items of a non-empty JSON array, including the
closing bracket. -/
def parseJsonItems : Nat → List Char → Option (List JsonVal × List Char)
  | 0, _ => none
  | fuel + 1, cs =>
    (parseJsonVal fuel cs).bind (fun p =>
      match skipWsJ p.2 with
      | ',' :: rest => (parseJsonItems fuel rest).map (fun q => (p.1 :: q.1, q.2))
      | ']' :: rest => some ([p.1], rest)
      | _ => none)

/-- Parse the members of a non-empty JSON object, including the closing
brace. -/
def parseJsonFields : Nat → List Char → Option (List (String × JsonVal) × List Char)
  | 0, _ => none
  | fuel + 1, cs =>
    match skipWsJ cs with
    | '"' :: rest =>
      (parseJsonStr fuel rest).bind (fun pk =>
        match skipWsJ pk.2 with
        | ':' :: rest2 =>
          (parseJsonVal fuel rest2).bind (fun pv =>
            match skipWsJ pv.2 with
            | ',' :: rest3 =>
              (parseJsonFields fuel rest3).map (fun q => ((⟨pk.1⟩, pv.1) :: q.1, q.2))
            | '}' :: rest3 => some ([(⟨pk.1⟩, pv.1)], rest3)
            | _ => none)
        | _ => none)
    | _ => none

end

/-- Model of `JSON.parse`: parse a full value, requiring only trailing
whitespace after it. -/
def parseJson (s : String) : Option JsonVal :=
  match parseJsonVal (2 * s.length + 2) s.data with
  | some (v, rest) => if (skipWsJ rest).isEmpty then some v else none
  | none => none

/-! ### splitTechstack -/

mutual

/-- Size of a JSON value (strings weighted by length), used as recursion fuel
for `splitTechstack`'s re-parse loop. -/
def jsonSize : JsonVal → Nat
  | .null => 1
  | .bool _ => 1
  | .num _ => 1
  | .str s => s.length + 1
  | .arr xs => 1 + jsonSizeList xs
  | .obj fs => 1 + jsonSizeFields fs

def jsonSizeList : List JsonVal → Nat
  | [] => 0
  | x :: xs => jsonSize x + jsonSizeList xs

def jsonSizeFields : List (String × JsonVal) → Nat
  | [] => 0
  | f :: fs => f.1.length + jsonSize f.2 + jsonSizeFields fs

end

/-- The separator class of `splitTechstack`'s final split
(`/[,;|\/\n]/g`). -/
def splitSeps (c : Char) : Bool :=
  c == ',' || c == ';' || c == '|' || c == '/' || c == '\n'

/-- Split on the separator class, trim each piece, drop empties
(`normalized`). -/
def normalizedSplit (s : String) : List String :=
  ((splitListOn splitSeps s.data).map (fun part => jsTrim ⟨part⟩)).filter (fun t => !(t == ""))

/-- Try to match `"technology_name"\s*:\s*"([^"]+)"` at the head of the list,
returning the capture and the remainder after the match. -/
def matchTechAt (cs : List Char) : Option (String × List Char) :=
  if ("\"technology_name\"".data).isPrefixOf cs then
    let r2 := (cs.drop 17).dropWhile wsChar
    match r2 with
    | ':' :: r3 =>
      match r3.dropWhile wsChar with
      | '"' :: r5 =>
        let cap := r5.takeWhile (fun c => !(c == '"'))
        match r5.dropWhile (fun c => !(c == '"')) with
        | '"' :: after => if cap.isEmpty then none else some (⟨cap⟩, after)
        | _ => none
      | _ => none
    | _ => none
  else none

/-- All (leftmost, non-overlapping) matches of the `technology_name` regex, as
`matchAll` produces them; fueled by the scan length. -/
def techNameScanF : Nat → List Char → List String
  | 0, _ => []
  | _ + 1, [] => []
  | fuel + 1, c :: rest =>
    match matchTechAt (c :: rest) with
    | some (cap, after) => cap :: techNameScanF fuel after
    | none => techNameScanF fuel rest

/-- The `technology_name` captures of a string, trimmed and non-empty. -/
def techNameMatches (s : String) : List String :=
  ((techNameScanF s.length s.data).map jsTrim).filter (fun t => !(t == ""))

/-- The source's `splitTechstack`: arrays and objects flatten recursively with
first-occurrence dedup; a string first yields its `technology_name` captures,
else re-parses as JSON (arrays, objects and `null` recursing — in JS
`typeof null === "object"`), else splits on the separator class.  Fueled; the
wrapper supplies ample fuel. -/
def splitTechstackF : Nat → JsonVal → List String
  | 0, _ => []
  | fuel + 1, v =>
    match v with
    | .arr xs => dedupKeepFirst (xs.flatMap (splitTechstackF fuel))
    | .str s =>
      let trimmed := jsTrim s
      if trimmed == "" then []
      else
        let tm := techNameMatches trimmed
        if !tm.isEmpty then dedupKeepFirst tm
        else
          match parseJson trimmed with
          | some (.arr xs) => splitTechstackF fuel (.arr xs)
          | some (.obj fs) => splitTechstackF fuel (.obj fs)
          | some .null => splitTechstackF fuel .null
          | _ => normalizedSplit trimmed
    | .obj fs => dedupKeepFirst (fs.flatMap (fun f => splitTechstackF fuel f.2))
    | _ => []

/-- Entry point of `splitTechstack`. -/
def splitTechstack (v : JsonVal) : List String := splitTechstackF (jsonSize v + 1) v

/-! ### Analytics engine -/

/-- Count each distinct key of the list, in first-occurrence order (a JS `Map`
used as a counter). -/
def countByKeepOrder (keys : List String) : List (String × Nat) :=
  (dedupKeepFirst keys).map (fun k => (k, (keys.filter (fun x => x == k)).length))

/-- Sort comparator `(a, b) => b.value - a.value` (descending by count,
stable). -/
def byValueDesc (a b : String × Nat) : Bool := decide (b.2 ≤ a.2)

/-- The `tech_level ?? techLevel ?? nivel_tecnico` classification of one raw
record: trimmed lower-cased when a non-blank string, else "unknown". -/
def levelOf (raw : List (String × JsonVal)) : String :=
  match coalesceKeys raw ["tech_level", "techLevel", "nivel_tecnico"] with
  | some (.str s) => if !(jsTrim s == "") then jsLower (jsTrim s) else "unknown"
  | _ => "unknown"

/-- The technology tags of one raw record
(`splitTechstack(raw.tech_stack ?? raw.techstack ?? raw.stack)`). -/
def techsOf (raw : List (String × JsonVal)) : List String :=
  splitTechstack ((coalesceKeys raw ["tech_stack", "techstack", "stack"]).getD .null)

/-- The aggregate snapshot `querySoindaAnalytics` computes. -/
structure SoindaAnalytics where
  total : Nat
  available : Nat
  avgPrice : Option ℚ
  uniqueTlds : Nat
  topTlds : List (String × Nat)
  topTech : List (String × Nat)
  topLevels : List (String × Nat)
  heatRows : List String
  heatCols : List String
  heatMatrix : List (List Nat)
  heatMax : Nat

/-- The analytics computation over the store, for a filter predicate: the
aggregate SQL queries and the JS post-processing of `querySoindaAnalytics`.
`GROUP BY` buckets are taken in first-occurrence order and count sorts are
stable, the deterministic refinement of the unspecified SQL tie order. -/
def computeAnalytics (f : QueryFilters) (rows : List DbRow) : SoindaAnalytics :=
  let matched := rows.filter (rowMatchesSql f)
  let priced := matched.filterMap (·.price)
  let topTlds := (insertionSortB byValueDesc (countByKeepOrder (matched.map (·.tld)))).take 8
  let levels := matched.map (fun r => levelOf r.raw_json)
  let topLevels := (insertionSortB byValueDesc (countByKeepOrder levels)).take 5
  let heatRows := (topTlds.take 6).map (·.1)
  let heatCols := topLevels.map (·.1)
  let heatMatrix := heatRows.map (fun rowTld =>
    heatCols.map (fun colLevel =>
      (matched.filter (fun r => r.tld == rowTld && levelOf r.raw_json == colLevel)).length))
  { total := matched.length
    available := (matched.filter (fun r => r.available == some true)).length
    avgPrice := if priced.isEmpty then none else some (priced.sum / priced.length)
    uniqueTlds := (dedupKeepFirst (matched.map (·.tld))).length
    topTlds := topTlds
    topTech :=
      (insertionSortB byValueDesc
        (countByKeepOrder (matched.flatMap (fun r => techsOf r.raw_json)))).take 12
    topLevels := topLevels
    heatRows := heatRows
    heatCols := heatCols
    heatMatrix := heatMatrix
    heatMax := heatMatrix.flatten.foldl max 0 }

/-! ### Analytics cache and engine state -/

/-- Analytics cache TTL (`ANALYTICS_CACHE_TTL_MS`, 5 minutes). -/
def ANALYTICS_CACHE_TTL_MS : Nat := 5 * 60 * 1000

/-- The canonicalized cache key (`JSON.stringify` of the normalized filter
object, modelled structurally): `q`/`tld` defaulted to "", column filters
trimmed, blank ones dropped, sorted by key. -/
structure AnalyticsKey where
  q : String
  tld : String
  available : Option Bool
  columnFilters : List (String × String)
deriving DecidableEq, Repr

/-- Build the cache key from the filter options. -/
def canonKey (f : QueryFilters) : AnalyticsKey :=
  { q := f.q.getD ""
    tld := f.tld.getD ""
    available := f.available
    columnFilters :=
      insertionSortB (fun a b => strLeB a.1 b.1)
        ((f.columnFilters.map (fun kv => (kv.1, jsTrim kv.2))).filter
          (fun kv => !(kv.2 == ""))) }

/-- One analytics cache entry. -/
structure AnalyticsEntry where
  ts : Nat
  version : Nat
  value : SoindaAnalytics

/-- The process state of the store module: the `soinda_domains` table, the
`soinda_meta` key/value table (a total function, `none` = absent/NULL), the
module-level `analyticsVersion` counter and the `analyticsCache` map. -/
structure EngineState where
  rows : List DbRow
  meta : String → Option String
  analyticsVersion : Nat
  analyticsCache : List (AnalyticsKey × AnalyticsEntry)

/-- The source's `setMeta` (INSERT OR UPDATE of one key). -/
def setMetaS (st : EngineState) (k : String) (v : Option String) : EngineState :=
  { st with meta := fun k2 => if k2 == k then v else st.meta k2 }

/-- Cache lookup (`Map.get`). -/
def lookupCache (cache : List (AnalyticsKey × AnalyticsEntry)) (k : AnalyticsKey) :
    Option AnalyticsEntry :=
  (cache.find? (fun e => decide (e.1 = k))).map (·.2)

/-- Cache write (`Map.set`): replace in place, else append. -/
def setCache (cache : List (AnalyticsKey × AnalyticsEntry)) (k : AnalyticsKey)
    (e : AnalyticsEntry) : List (AnalyticsKey × AnalyticsEntry) :=
  if cache.any (fun p => decide (p.1 = k)) then
    cache.map (fun p => if p.1 = k then (k, e) else p)
  else cache ++ [(k, e)]

/-- The source's `querySoindaAnalytics` at time `nowMs`: serve from cache when
the entry's version matches the current `analyticsVersion` and it is younger
than the TTL; otherwise recompute, store, and return.  The boolean reports
whether the call was served from cache. -/
def querySoindaAnalytics (f : QueryFilters) (nowMs : Nat) (st : EngineState) :
    SoindaAnalytics × EngineState × Bool :=
  let key := canonKey f
  let recompute : SoindaAnalytics × EngineState × Bool :=
    let v := computeAnalytics f st.rows
    let entry : AnalyticsEntry := { ts := nowMs, version := st.analyticsVersion, value := v }
    (v, { st with analyticsCache := setCache st.analyticsCache key entry }, false)
  match lookupCache st.analyticsCache key with
  | some e =>
    if e.version == st.analyticsVersion && nowMs - e.ts < ANALYTICS_CACHE_TTL_MS then
      (e.value, st, true)
    else recompute
  | none => recompute

/-- Bump the invalidation version and clear the cache (the tail of every
non-failing sync run). -/
def bumpAnalytics (st : EngineState) : EngineState :=
  { st with analyticsVersion := st.analyticsVersion + 1, analyticsCache := [] }

/-- The source's `resetSoindaCatalog`: delete both tables, bump the version,
clear the cache. -/
def resetSoindaCatalog (st : EngineState) : EngineState :=
  { rows := []
    meta := fun _ => none
    analyticsVersion := st.analyticsVersion + 1
    analyticsCache := [] }

/-! ### Synchronization engine

`syncSoindaDomains`'s async body, its page loop and its catch handler, as a
pure function of the initial state, a fetch oracle (the result of
`fetchExternalDomainsPage` per page number, or the thrown error message), and
the run's clock `nowMs` (the `new Date()` calls of one run, taken at one
instant; the claims only inspect the stored completion timestamp). -/

/-- The sync cooldown / staleness interval (2 hours, in ms). -/
def TWO_HOURS_MS : Nat := 2 * 60 * 60 * 1000

/-- The sync page size (`PAGE_SIZE_SYNC`). -/
def PAGE_SIZE_SYNC : Nat := 100

/-- The per-run page budget (`SYNC_MAX_PAGES_PER_RUN`). -/
def SYNC_MAX_PAGES_PER_RUN : Nat := 80

/-- Timestamp codec: `new Date(ms).toISOString()` modelled as the decimal
millisecond string (injective and order-preserving; no claim depends on the
ISO-8601 surface format). -/
def msToIso (ms : Nat) : String := toString ms

/-- Timestamp codec: `Date.parse` of a stored timestamp string (`none` models
NaN). -/
def parseDateMs (s : String) : Option Nat :=
  if !s.data.isEmpty && s.data.all Char.isDigit then some (digitsToNat s.data) else none

/-- The source's `isRateLimitError`: message scan for "429", "too many
attempts" or "throttle". -/
def isRateLimitError (message : String) : Bool :=
  let n := jsLower message
  includesStr n "429" || includesStr n "too many attempts" || includesStr n "throttle"

/-- The persisted sync mode. -/
inductive SyncMode where
  | full
  | incremental
deriving DecidableEq, Repr

/-- Its stored name. -/
def syncModeName : SyncMode → String
  | .full => "full"
  | .incremental => "incremental"

/-- The source's `getSyncMode`: `"incremental"` (after trim/lower-case) means
incremental, anything else means full. -/
def getSyncMode (meta : String → Option String) : SyncMode :=
  let raw := jsLower (jsTrim ((meta "sync_mode").getD ""))
  if raw == "incremental" then .incremental else .full

/-- `Math.max(1, Number(getMeta("sync_cursor_page") || "1"))` (stored cursor
values are canonical decimal strings; a non-numeric value defaults). -/
def metaPage (meta : String → Option String) : Nat :=
  let s := match meta "sync_cursor_page" with
    | some v => if v == "" then "1" else v
    | none => "1"
  max 1 ((parseDateMs s).getD 1)

/-- `Number(getMeta("sync_total_pages") || "0")`, clamped to 0 when not a
positive finite number. -/
def metaTotalPages (meta : String → Option String) : Nat :=
  let s := match meta "sync_total_pages" with
    | some v => if v == "" then "0" else v
    | none => "0"
  (parseDateMs s).getD 0

/-- The creation-timestamp candidate fields, in priority order. -/
def createdAtKeys : List String :=
  ["created_at", "createdAt", "first_seen_at", "firstSeenAt", "updated_at", "updatedAt"]

/-- The source's `getCreatedAtFromDomain`: first candidate field that is a
non-blank string parsing as a date. -/
def getCreatedAtFromDomain (d : MarketplaceDomain) : Option Nat :=
  createdAtKeys.findSome? (fun k =>
    match jlookup d.raw k with
    | some (.str s) => if (jsTrim s) == "" then none else parseDateMs s
    | _ => none)

/-- The source's `getMaxCreatedAtIso` (kept in milliseconds; the ISO
round-trip of the codec is elided): maximum positive creation timestamp of a
batch, if any. -/
def maxCreatedTs (items : List MarketplaceDomain) : Option Nat :=
  let maxTs := items.foldl
    (fun m it =>
      match getCreatedAtFromDomain it with
      | some ts => if 0 < ts && m < ts then ts else m
      | none => m)
    0
  if maxTs == 0 then none else some maxTs

/-- The `COALESCE(json_extract ...)` expression of `getLocalMaxCreatedAtIso`:
first present string among the candidate raw fields. -/
def sqlCoalesceCreated (raw : List (String × JsonVal)) : Option String :=
  createdAtKeys.findSome? (fun k =>
    match jlookup raw k with
    | some (.str s) => some s
    | _ => none)

/-- The source's `getLocalMaxCreatedAtIso` (in milliseconds): the SQL `MAX`
(string order) of the coalesced creation fields over the whole table, parsed
as a date. -/
def getLocalMaxCreatedAtTs (rows : List DbRow) : Option Nat :=
  ((rows.filterMap (fun r => sqlCoalesceCreated r.raw_json)).max?).bind parseDateMs

/-- The incremental-mode convergence test: `!hasCursor ||
(Number.isFinite(pageMaxTs) && pageMaxTs > cursorCreatedAtTs)` where
`hasCursor` requires a finite positive cursor. -/
def hasNewerOnPage (cursorTs pageMaxTs : Option Nat) : Bool :=
  match cursorTs with
  | some t =>
    if 0 < t then
      match pageMaxTs with
      | some p => decide (t < p)
      | none => false
    else true
  | none => true

/-- How the page loop ended. -/
inductive LoopExit where
  | completed
  | interrupted
  | failed (msg : String)
deriving DecidableEq, Repr

/-- The discovered page-count (`Math.max(1, Math.ceil(total / PAGE_SIZE_SYNC))`). -/
def pagesOfTotal (total : ℚ) : Nat :=
  max 1 (⌈total / (PAGE_SIZE_SYNC : ℚ)⌉.toNat)

/-- One iteration's store writes (the upserts plus the observability
metadata), together with the possibly-discovered page count. -/
def syncPageBook (st0 : EngineState) (current : PageResult) (nowMs page totalPages0 : Nat) :
    EngineState × Nat :=
  let st := { st0 with rows := upsertMany st0.rows current.data (msToIso nowMs) }
  let discovered := totalPages0 == 0 && current.total.isSome
  let totalPages := if discovered then pagesOfTotal (current.total.getD 0) else totalPages0
  let st := if discovered then
      setMetaS st "sync_total_pages" (some (toString totalPages))
    else st
  let st := setMetaS st "sync_last_page" (some (toString page))
  let st := setMetaS st "sync_last_source_count" (some (toString current.sourceCount))
  let st := setMetaS st "sync_last_normalized_count" (some (toString current.data.length))
  (st, totalPages)

/-- The natural-end test of one iteration. -/
def reachedEndB (current : PageResult) (page totalPages : Nat) : Bool :=
  if 0 < totalPages then decide (totalPages ≤ page)
  else !current.hasMore || decide (current.sourceCount < PAGE_SIZE_SYNC)

/-- The running maximum of creation timestamps. -/
def bumpMaxSeen (maxSeen0 : Nat) (pageMaxTs : Option Nat) : Nat :=
  match pageMaxTs with
  | some t => if maxSeen0 < t then t else maxSeen0
  | none => maxSeen0

/-- The page loop of `syncSoindaDomains`.  `fetch` is the
`fetchExternalDomainsPage` oracle (result or thrown error message per page
number); `fuel` is the number of further iterations the page budget allows
(entering the loop with `pagesProcessed = p` corresponds to
`fuel = SYNC_MAX_PAGES_PER_RUN - 1 - p`).  Returns the state after the loop,
the maximum creation timestamp seen, and the exit kind. -/
def syncLoopGo (fetch : Nat → Except String PageResult) (nowMs : Nat) (mode : SyncMode)
    (cursorTs : Option Nat) :
    Nat → Nat → Nat → Nat → EngineState → EngineState × Nat × LoopExit
  | fuel, page, totalPages0, maxSeen0, st0 =>
    match fetch page with
    | .error msg => (st0, maxSeen0, .failed msg)
    | .ok current =>
      let book := syncPageBook st0 current nowMs page totalPages0
      let st := book.1
      let totalPages := book.2
      let pageMaxTs := maxCreatedTs current.data
      let maxSeen := bumpMaxSeen maxSeen0 pageMaxTs
      if reachedEndB current page totalPages then (st, maxSeen, .completed)
      else if mode == .incremental && !(hasNewerOnPage cursorTs pageMaxTs) then
        (st, maxSeen, .completed)
      else
        match fuel with
        | 0 =>
          (setMetaS st "sync_cursor_page" (some (toString (page + 1))), maxSeen, .interrupted)
        | fuel2 + 1 => syncLoopGo fetch nowMs mode cursorTs fuel2 (page + 1) totalPages maxSeen st

/-- What the body computes before entering the page loop. -/
structure SyncPrelude where
  st : EngineState
  mode : SyncMode
  page : Nat
  totalPages : Nat
  cursorTs : Option Nat

/-- Compute the incremental watermark from the local table and persist it when
found (`getLocalMaxCreatedAtIso` branch of the prelude). -/
def watermarkFromLocal (st : EngineState) : EngineState × Option Nat :=
  match getLocalMaxCreatedAtTs st.rows with
  | some ts => (setMetaS st "source_created_at_max" (some (msToIso ts)), some ts)
  | none => (st, none)

/-- Establish the incremental watermark: the persisted
`source_created_at_max` when present and non-blank (parsed as a date), else
the local-table maximum, persisted. -/
def watermarkInit (st : EngineState) : EngineState × Option Nat :=
  match st.meta "source_created_at_max" with
  | some raw =>
    if raw == "" then watermarkFromLocal st
    else (st, parseDateMs raw)
  | none => watermarkFromLocal st

/-- Mode selection: `full` when forced or the table is empty, else the
persisted mode. -/
def selectMode (force : Bool) (st : EngineState) : SyncMode :=
  if force then .full
  else if st.rows.length == 0 then .full
  else getSyncMode st.meta

/-- The body of `syncSoindaDomains` before the page loop: clear the error,
stamp the start, select and persist the mode, read the cursor and total-page
metadata, and in incremental mode establish the watermark. -/
def syncPrelude (force : Bool) (nowMs : Nat) (st0 : EngineState) : SyncPrelude :=
  let st := setMetaS st0 "last_sync_error" none
  let st := setMetaS st "sync_started_at" (some (msToIso nowMs))
  let mode := selectMode force st
  let st := setMetaS st "sync_mode" (some (syncModeName mode))
  let page := metaPage st.meta
  let totalPages := metaTotalPages st.meta
  let wm := if mode == .incremental then watermarkInit st else (st, none)
  { st := wm.1, mode := mode, page := page, totalPages := totalPages, cursorTs := wm.2 }

/-- The prelude followed by the page loop (the body of `syncSoindaDomains` up
to, and excluding, the post-loop bookkeeping). -/
def syncLoopFrom (fetch : Nat → Except String PageResult) (nowMs : Nat) (force : Bool)
    (st0 : EngineState) : EngineState × Nat × LoopExit :=
  let p := syncPrelude force nowMs st0
  syncLoopGo fetch nowMs p.mode p.cursorTs (SYNC_MAX_PAGES_PER_RUN - 1) p.page p.totalPages 0 p.st

/-- The observable outcome of one sync run. -/
structure RunOut where
  state : EngineState
  mode : SyncMode
  exit : LoopExit

/-- The full async body of `syncSoindaDomains` including its catch handler:
run the prelude and page loop; persist the watermark when one was seen; on
completion persist `last_sync_at`, clear the cooldown, reset the cursor to
page 1, clear `sync_total_pages` and flip a full run's mode to incremental;
bump the analytics version and clear the cache on every non-failing exit; on
failure classify rate-limit errors (cooldown `now + 2h` plus a descriptive
message) against all others (raw message). -/
def syncRunBody (fetch : Nat → Except String PageResult) (nowMs : Nat) (force : Bool)
    (st0 : EngineState) : RunOut :=
  let p := syncPrelude force nowMs st0
  let out := syncLoopFrom fetch nowMs force st0
  let st1 := out.1
  let maxSeen := out.2.1
  let exit := out.2.2
  -- The post-loop `source_created_at_max` write is inside the `try`: a thrown
  -- fetch error skips it (the catch handler only records the failure).
  match exit with
  | .completed =>
    let st2 := if 0 < maxSeen then
        setMetaS st1 "source_created_at_max" (some (msToIso maxSeen))
      else st1
    let st3 := setMetaS st2 "last_sync_at" (some (msToIso nowMs))
    let st3 := setMetaS st3 "sync_finished_at" (some (msToIso nowMs))
    let st3 := setMetaS st3 "next_sync_not_before" none
    let st3 := setMetaS st3 "sync_cursor_page" (some "1")
    let st3 := setMetaS st3 "sync_total_pages" none
    let st3 := if p.mode == .full then setMetaS st3 "sync_mode" (some "incremental") else st3
    { state := bumpAnalytics st3, mode := p.mode, exit := exit }
  | .interrupted =>
    let st2 := if 0 < maxSeen then
        setMetaS st1 "source_created_at_max" (some (msToIso maxSeen))
      else st1
    { state := bumpAnalytics st2, mode := p.mode, exit := exit }
  | .failed msg =>
    let st3 :=
      if isRateLimitError msg then
        let blockedUntil := msToIso (nowMs + TWO_HOURS_MS)
        let s1 := setMetaS st1 "next_sync_not_before" (some blockedUntil)
        setMetaS s1 "last_sync_error"
          (some ("Rate limited by Soinda (429). Next retry after " ++ blockedUntil))
      else setMetaS st1 "last_sync_error" (some msg)
    { state := st3, mode := p.mode, exit := exit }

/-- The `SyncStatus` snapshot assembled by `getSoindaSyncStatus` (the
process-local `isSyncing` flag is outside the pure state). -/
structure SyncStatusView where
  lastSyncAt : Option String
  lastError : Option String
  totalDomains : Nat
  nextSyncNotBefore : Option String
  cursorPage : Nat
  totalPages : Option Nat
  lastPage : Option Nat
  sourceCreatedAtMax : Option String
  syncMode : SyncMode

/-- The source's `getSoindaSyncStatus` over the store state. -/
def getSoindaSyncStatus (st : EngineState) : SyncStatusView :=
  let totalPagesRaw := metaTotalPages st.meta
  let lastPageRaw :=
    (parseDateMs ((st.meta "sync_last_page").getD "0")).getD 0
  { lastSyncAt := st.meta "last_sync_at"
    lastError := st.meta "last_sync_error"
    totalDomains := st.rows.length
    nextSyncNotBefore := st.meta "next_sync_not_before"
    cursorPage := metaPage st.meta
    totalPages := if 0 < totalPagesRaw then some totalPagesRaw else none
    lastPage := if 0 < lastPageRaw then some lastPageRaw else none
    sourceCreatedAtMax := st.meta "source_created_at_max"
    syncMode := getSyncMode st.meta }

/-! ## Theorems -/

/-! ### C9: the normalization scenario -/

/-- C9: normalizing `{"domain_name": "Example.COM", "disponible": "si",
"precio": "12,50"}` yields domain "example.com", tld "com", availability
`true` (locale-aware coercion of "si") and price 12.5 (comma-as-decimal
coercion of "12,50"); the whole row is retained as `raw`. -/
theorem normalize_scenario_c9 :
    normalizeDomain (.obj [("domain_name", .str "Example.COM"),
        ("disponible", .str "si"), ("precio", .str "12,50")]) =
      some
        { domain := "example.com"
          tld := "com"
          available := some true
          price := some (25 / 2 : ℚ)
          currency := none
          status := none
          raw := [("domain_name", .str "Example.COM"),
            ("disponible", .str "si"), ("precio", .str "12,50")] } := by
  have h12 : digitsToNat ['1', '2'] = 12 := by decide
  have h50 : digitsToNat ['5', '0'] = 50 := by decide
  have h : (25 / 2 : ℚ) =
      (digitsToNat ['1', '2'] : ℚ) + (digitsToNat ['5', '0'] : ℚ) / (10 : ℚ) ^ (2 : ℕ) := by
    rw [h12, h50]; norm_num
  rw [h]; rfl

/-! ### C7: the `hasMore` continuation heuristic -/

/-- C7 (amended): `hasMore` is true exactly when the extracted row count is at
least (not exactly equal to) the requested page size. -/
theorem pageHasMore_iff_ge (payload : JsonVal) (perPage : Nat) :
    (processPage payload perPage).hasMore = true ↔
      perPage ≤ (extractRows payload).length := by
  simp [processPage]

/-- C7 counterexample: a page of 3 extracted rows requested with page size 2
has `hasMore = true` although the row count does not equal the page size — so
"true exactly when the number of extracted rows equals the requested page
size" fails on the code. -/
theorem pageHasMore_not_iff_eq :
    (processPage (.arr [.str "a.com", .str "b.com", .str "c.com"]) 2).hasMore = true ∧
      (extractRows (.arr [.str "a.com", .str "b.com", .str "c.com"])).length ≠ 2 := by
  constructor
  · rfl
  · decide

/-! ### C4: last-write-wins upserts and idempotence -/

/-- The last item of a batch carrying the given domain — the write that wins. -/
def lastWithDomain : List MarketplaceDomain → String → Option MarketplaceDomain
  | [], _ => none
  | a :: items, d =>
    match lastWithDomain items d with
    | some it => some it
    | none => if a.domain == d then some a else none

/-- Looking up a key in the in-place-replacement map of `upsertOne`. -/
theorem lookupRow_mapReplace (rows : List DbRow) (r : DbRow) (d : String) :
    lookupRow (rows.map (fun x => if x.domain == r.domain then r else x)) d =
      if r.domain = d then (if rows.any (fun x => x.domain == d) then some r else none)
      else lookupRow rows d := by
  induction rows with
  | nil => by_cases hd : r.domain = d <;> simp [lookupRow, hd]
  | cons x xs ih =>
    by_cases hx : x.domain = r.domain <;> by_cases hd : r.domain = d
    · have hxd : x.domain = d := hx.trans hd
      simp [lookupRow, List.find?_cons, hx, hd, hxd]
    · have hxd : ¬ x.domain = d := fun h => hd (hx ▸ h)
      have hxB : (x.domain == r.domain) = true := beq_iff_eq.mpr hx
      have hdB : (r.domain == d) = false := beq_eq_false_iff_ne.mpr hd
      have hxdB : (x.domain == d) = false := beq_eq_false_iff_ne.mpr hxd
      simp only [lookupRow, List.map_cons, List.find?_cons, List.any_cons, hxB, hdB, hxdB,
        if_true, if_false, hd, if_neg] at ih ⊢
      simpa [hdB] using ih
    · have hxd : ¬ x.domain = d := fun h => hx (h.trans hd.symm)
      have hxB : (x.domain == r.domain) = false := beq_eq_false_iff_ne.mpr hx
      have hdB : (r.domain == d) = true := beq_iff_eq.mpr hd
      have hxdB : (x.domain == d) = false := beq_eq_false_iff_ne.mpr hxd
      simp only [lookupRow, List.map_cons, List.find?_cons, List.any_cons, hxB, hdB, hxdB,
        Bool.false_eq_true, if_false, hd, if_pos] at ih ⊢
      simpa [hdB, hxdB] using ih
    · have hxB : (x.domain == r.domain) = false := beq_eq_false_iff_ne.mpr hx
      have hdB : (r.domain == d) = false := beq_eq_false_iff_ne.mpr hd
      by_cases hxd : x.domain = d
      · have hxdB : (x.domain == d) = true := beq_iff_eq.mpr hxd
        simp [lookupRow, List.find?_cons, hx, hxB, hdB, hxdB, hd]
      · have hxdB : (x.domain == d) = false := beq_eq_false_iff_ne.mpr hxd
        simp only [lookupRow, List.map_cons, List.find?_cons, List.any_cons, hxB, hxdB, hdB,
          hd, if_neg] at ih ⊢
        simpa [hdB, hxdB] using ih

/-- Key lookup after a single upsert: the upserted row at its own key,
everything else unchanged. -/
theorem lookupRow_upsertOne (rows : List DbRow) (r : DbRow) (d : String) :
    lookupRow (upsertOne rows r) d =
      if r.domain = d then some r else lookupRow rows d := by
  unfold upsertOne
  by_cases hany : rows.any (fun x => x.domain == r.domain)
  · rw [if_pos hany, lookupRow_mapReplace]
    by_cases hd : r.domain = d
    · subst hd
      simp [hany]
    · simp [hd]
  · rw [if_neg hany]
    unfold lookupRow
    rw [List.find?_append]
    by_cases hd : r.domain = d
    · subst hd
      have hnone : rows.find? (fun x => x.domain == r.domain) = none := by
        rw [List.find?_eq_none]
        intro x hx
        simp only [List.any_eq_true, not_exists, not_and] at hany
        simpa using hany x hx
      simp [hnone, List.find?]
    · have h1 : (List.find? (fun x => x.domain == d) [r]) = none := by
        simp [List.find?_cons, beq_eq_false_iff_ne.mpr hd]
      rw [h1, Option.or_none, if_neg hd]

/-- Key lookup after a batch upsert: the last write for that key wins, rows
with other keys are untouched. -/
theorem lookupRow_upsertMany (items : List MarketplaceDomain) (rows : List DbRow)
    (now : String) (d : String) :
    lookupRow (upsertMany rows items now) d =
      match lastWithDomain items d with
      | some it => some (rowOfItem it now)
      | none => lookupRow rows d := by
  induction items generalizing rows with
  | nil => rfl
  | cons a items ih =>
    show lookupRow (upsertMany (upsertOne rows (rowOfItem a now)) items now) d = _
    rw [ih]
    cases hl : lastWithDomain items d with
    | some it => simp [lastWithDomain, hl]
    | none =>
      simp only [lastWithDomain, hl, lookupRow_upsertOne]
      by_cases h : a.domain = d
      · simp [rowOfItem, h]
      · simp [rowOfItem, h]

/-- The page loop over a list of pages is the batch upsert of their
concatenation. -/
theorem runPages_eq_flatten (pages : List (List MarketplaceDomain)) (rows : List DbRow)
    (now : String) :
    runPages rows pages now = upsertMany rows pages.flatten now := by
  induction pages generalizing rows with
  | nil => rfl
  | cons pg pages ih =>
    show runPages (upsertMany rows pg now) pages now = _
    rw [ih, List.flatten_cons]
    unfold upsertMany
    rw [List.foldl_append]

/-- C4: upserts are keyed by domain and last-write-wins with no field merging
— ingesting two records with the same domain in sequence stores exactly the
row derived from the later record and leaves the store content (the keyed
table, compared key by key) identical to ingesting the later record alone;
consequently running the page-loop upserts twice over the same pages, with a
fixed timestamp, produces the same store content as running them once. -/
theorem upsert_last_write_wins_idempotent :
    (∀ (rows : List DbRow) (a b : MarketplaceDomain) (now : String),
      a.domain = b.domain →
      lookupRow (upsertMany rows [a, b] now) b.domain = some (rowOfItem b now) ∧
      ∀ d, lookupRow (upsertMany rows [a, b] now) d = lookupRow (upsertMany rows [b] now) d) ∧
    (∀ (rows : List DbRow) (pages : List (List MarketplaceDomain)) (now : String) (d : String),
      lookupRow (runPages (runPages rows pages now) pages now) d =
        lookupRow (runPages rows pages now) d) := by
  constructor
  · intro rows a b now hab
    constructor
    · rw [lookupRow_upsertMany]
      simp [lastWithDomain]
    · intro d
      rw [lookupRow_upsertMany, lookupRow_upsertMany]
      by_cases hb : b.domain = d
      · simp [lastWithDomain, hb]
      · have ha : ¬ a.domain = d := by rw [hab]; exact hb
        simp [lastWithDomain, hb, ha]
  · intro rows pages now d
    rw [runPages_eq_flatten, runPages_eq_flatten, lookupRow_upsertMany, lookupRow_upsertMany]
    cases hl : lastWithDomain pages.flatten d with
    | some it => simp
    | none => simp

/-- A first record for "x.com". -/
def demoItemA : MarketplaceDomain :=
  { domain := "x.com", tld := "com", available := none, price := none, currency := none,
    status := none, raw := [] }

/-- A later record for the same domain. -/
def demoItemB : MarketplaceDomain :=
  { domain := "x.com", tld := "com", available := some true, price := none, currency := none,
    status := none, raw := [] }

/-- Witness for C4 at a concrete input: two records for "x.com" upserted into
an empty store keep only the later one's row. -/
theorem upsert_last_write_wins_witness :
    demoItemA.domain = demoItemB.domain ∧
      lookupRow (upsertMany [] [demoItemA, demoItemB] "t") demoItemB.domain =
        some (rowOfItem demoItemB "t") := by
  refine ⟨rfl, ?_⟩
  exact (upsert_last_write_wins_idempotent.1 [] demoItemA demoItemB "t" rfl).1


/-- C1: every sync run that ends Completed persists `lastSyncAt = now`, clears
the cooldown `nextSyncNotBefore`, resets the page cursor to 1 and clears
`totalPages` (both in the metadata and in the status snapshot), regardless of
the fetch transcript, the initial state or how many pages were processed; and
when the run's mode was `full` the persisted `syncMode` flips to
"incremental" for future runs. -/
theorem sync_completed_postconditions (fetch : Nat → Except String PageResult) (nowMs : Nat)
    (force : Bool) (st0 : EngineState)
    (h : (syncRunBody fetch nowMs force st0).exit = .completed) :
    (syncRunBody fetch nowMs force st0).state.meta "last_sync_at" = some (msToIso nowMs) ∧
    (syncRunBody fetch nowMs force st0).state.meta "next_sync_not_before" = none ∧
    (syncRunBody fetch nowMs force st0).state.meta "sync_cursor_page" = some "1" ∧
    (syncRunBody fetch nowMs force st0).state.meta "sync_total_pages" = none ∧
    (getSoindaSyncStatus (syncRunBody fetch nowMs force st0).state).cursorPage = 1 ∧
    (getSoindaSyncStatus (syncRunBody fetch nowMs force st0).state).totalPages = none ∧
    ((syncRunBody fetch nowMs force st0).mode = .full →
      (syncRunBody fetch nowMs force st0).state.meta "sync_mode" = some "incremental") := by
  cases hx : (syncLoopFrom fetch nowMs force st0).2.2 with
  | interrupted => simp [syncRunBody, hx] at h
  | failed msg => simp [syncRunBody, hx] at h
  | completed =>
    have h1 : (syncRunBody fetch nowMs force st0).state.meta "last_sync_at"
        = some (msToIso nowMs) := by
      simp only [syncRunBody, hx]
      by_cases hm : (syncPrelude force nowMs st0).mode == .full <;>
        simp [hm, bumpAnalytics, setMetaS]
    have h2 : (syncRunBody fetch nowMs force st0).state.meta "next_sync_not_before" = none := by
      simp only [syncRunBody, hx]
      by_cases hm : (syncPrelude force nowMs st0).mode == .full <;>
        simp [hm, bumpAnalytics, setMetaS]
    have h3 : (syncRunBody fetch nowMs force st0).state.meta "sync_cursor_page"
        = some "1" := by
      simp only [syncRunBody, hx]
      by_cases hm : (syncPrelude force nowMs st0).mode == .full <;>
        simp [hm, bumpAnalytics, setMetaS]
    have h4 : (syncRunBody fetch nowMs force st0).state.meta "sync_total_pages" = none := by
      simp only [syncRunBody, hx]
      by_cases hm : (syncPrelude force nowMs st0).mode == .full <;>
        simp [hm, bumpAnalytics, setMetaS]
    refine ⟨h1, h2, h3, h4, ?_, ?_, ?_⟩
    · simp [getSoindaSyncStatus, metaPage, h3, parseDateMs, digitsToNat]
    · simp [getSoindaSyncStatus, metaTotalPages, h4, parseDateMs, digitsToNat]
    · intro hfull
      have hm : (syncPrelude force nowMs st0).mode = .full := by
        simpa [syncRunBody, hx] using hfull
      simp [syncRunBody, hx, hm, bumpAnalytics, setMetaS]

/-- A fetch oracle whose first page already ends the catalog. -/
def demoFetchDone : Nat → Except String PageResult :=
  fun _ => .ok { data := [], fields := [], total := none, hasMore := false, sourceCount := 0 }

/-- The empty engine state. -/
def demoState0 : EngineState :=
  { rows := [], meta := fun _ => none, analyticsVersion := 0, analyticsCache := [] }

/-- Witness for C1: a concrete one-page run completes and shows all the
persisted postconditions. -/
theorem sync_completed_postconditions_witness :
    (syncRunBody demoFetchDone 5000 false demoState0).state.meta "last_sync_at" =
        some (msToIso 5000) ∧
    (syncRunBody demoFetchDone 5000 false demoState0).state.meta "next_sync_not_before" =
        none ∧
    (syncRunBody demoFetchDone 5000 false demoState0).state.meta "sync_cursor_page" =
        some "1" ∧
    (syncRunBody demoFetchDone 5000 false demoState0).state.meta "sync_total_pages" = none ∧
    (getSoindaSyncStatus (syncRunBody demoFetchDone 5000 false demoState0).state).cursorPage
        = 1 ∧
    (getSoindaSyncStatus (syncRunBody demoFetchDone 5000 false demoState0).state).totalPages
        = none ∧
    ((syncRunBody demoFetchDone 5000 false demoState0).mode = .full →
      (syncRunBody demoFetchDone 5000 false demoState0).state.meta "sync_mode" =
        some "incremental") :=
  sync_completed_postconditions demoFetchDone 5000 false demoState0 (by rfl)


/-! ### Sync-loop preservation lemmas -/

/-- The per-page bookkeeping only upserts rows and writes observability
metadata. -/
theorem syncPageBook_preserves (st0 : EngineState) (current : PageResult)
    (nowMs page tp0 : Nat) :
    ((syncPageBook st0 current nowMs page tp0).1.meta "next_sync_not_before"
        = st0.meta "next_sync_not_before") ∧
    ((syncPageBook st0 current nowMs page tp0).1.meta "last_sync_error"
        = st0.meta "last_sync_error") ∧
    ((syncPageBook st0 current nowMs page tp0).1.analyticsVersion = st0.analyticsVersion) ∧
    ((syncPageBook st0 current nowMs page tp0).1.analyticsCache = st0.analyticsCache) := by
  by_cases hdisc : (tp0 == 0 && current.total.isSome) = true
  · simp [syncPageBook, hdisc, setMetaS]
  · simp [syncPageBook, hdisc, setMetaS]

/-- The page loop never touches the cooldown, the recorded error, the
analytics version or the analytics cache. -/
theorem syncLoopGo_preserves (fetch : Nat → Except String PageResult) (nowMs : Nat)
    (mode : SyncMode) (cursorTs : Option Nat) :
    ∀ fuel page tp ms st,
      (((syncLoopGo fetch nowMs mode cursorTs fuel page tp ms st).1).meta
          "next_sync_not_before" = st.meta "next_sync_not_before") ∧
      (((syncLoopGo fetch nowMs mode cursorTs fuel page tp ms st).1).meta
          "last_sync_error" = st.meta "last_sync_error") ∧
      (((syncLoopGo fetch nowMs mode cursorTs fuel page tp ms st).1).analyticsVersion
          = st.analyticsVersion) ∧
      (((syncLoopGo fetch nowMs mode cursorTs fuel page tp ms st).1).analyticsCache
          = st.analyticsCache) := by
  intro fuel
  induction fuel with
  | zero =>
    intro page tp ms st
    rw [syncLoopGo]
    cases hf : fetch page with
    | error msg => exact ⟨rfl, rfl, rfl, rfl⟩
    | ok current =>
      simp only []
      split
      · exact syncPageBook_preserves st current nowMs page tp
      · split
        · exact syncPageBook_preserves st current nowMs page tp
        · have h := syncPageBook_preserves st current nowMs page tp
          simp [setMetaS, h.1, h.2.1, h.2.2.1, h.2.2.2]
  | succ fuel ih =>
    intro page tp ms st
    rw [syncLoopGo]
    cases hf : fetch page with
    | error msg => exact ⟨rfl, rfl, rfl, rfl⟩
    | ok current =>
      simp only []
      split
      · exact syncPageBook_preserves st current nowMs page tp
      · split
        · exact syncPageBook_preserves st current nowMs page tp
        · refine ⟨?_, ?_, ?_, ?_⟩
          · rw [(ih _ _ _ _).1, (syncPageBook_preserves st current nowMs page tp).1]
          · rw [(ih _ _ _ _).2.1, (syncPageBook_preserves st current nowMs page tp).2.1]
          · rw [(ih _ _ _ _).2.2.1, (syncPageBook_preserves st current nowMs page tp).2.2.1]
          · rw [(ih _ _ _ _).2.2.2, (syncPageBook_preserves st current nowMs page tp).2.2.2]

/-- A key present in the table stays present through a batch upsert. -/
theorem lookupRow_upsertMany_mono (items : List MarketplaceDomain) (rows : List DbRow)
    (now d : String) (h : (lookupRow rows d).isSome = true) :
    (lookupRow (upsertMany rows items now) d).isSome = true := by
  rw [lookupRow_upsertMany]
  cases hl : lastWithDomain items d <;> simp [h]

/-- The bookkeeping state's table is exactly the upserted table. -/
theorem syncPageBook_rows (st0 : EngineState) (current : PageResult)
    (nowMs page tp0 : Nat) :
    (syncPageBook st0 current nowMs page tp0).1.rows =
      upsertMany st0.rows current.data (msToIso nowMs) := by
  by_cases hdisc : (tp0 == 0 && current.total.isSome) = true
  · simp [syncPageBook, hdisc, setMetaS]
  · simp [syncPageBook, hdisc, setMetaS]

/-- A key present in the table when the loop starts is still present when it
stops, however it stops. -/
theorem syncLoopGo_rows_mono (fetch : Nat → Except String PageResult) (nowMs : Nat)
    (mode : SyncMode) (cursorTs : Option Nat) :
    ∀ fuel page tp ms st d, (lookupRow st.rows d).isSome = true →
      (lookupRow ((syncLoopGo fetch nowMs mode cursorTs fuel page tp ms st).1).rows d).isSome
        = true := by
  intro fuel
  induction fuel with
  | zero =>
    intro page tp ms st d h
    rw [syncLoopGo]
    cases hf : fetch page with
    | error msg => exact h
    | ok current =>
      simp only []
      split
      · rw [syncPageBook_rows]
        exact lookupRow_upsertMany_mono _ _ _ _ h
      · split
        · rw [syncPageBook_rows]
          exact lookupRow_upsertMany_mono _ _ _ _ h
        · show (lookupRow (setMetaS _ _ _).rows d).isSome = true
          simp only [setMetaS]
          rw [syncPageBook_rows]
          exact lookupRow_upsertMany_mono _ _ _ _ h
  | succ fuel ih =>
    intro page tp ms st d h
    rw [syncLoopGo]
    cases hf : fetch page with
    | error msg => exact h
    | ok current =>
      simp only []
      split
      · rw [syncPageBook_rows]
        exact lookupRow_upsertMany_mono _ _ _ _ h
      · split
        · rw [syncPageBook_rows]
          exact lookupRow_upsertMany_mono _ _ _ _ h
        · exact ih _ _ _ _ d (by
            rw [syncPageBook_rows]
            exact lookupRow_upsertMany_mono _ _ _ _ h)

/-- The prelude only writes metadata other than the cooldown: the cooldown
value, the table, the version and the cache pass through. -/
theorem syncPrelude_preserves (force : Bool) (nowMs : Nat) (st0 : EngineState) :
    ((syncPrelude force nowMs st0).st.meta "next_sync_not_before"
        = st0.meta "next_sync_not_before") ∧
    ((syncPrelude force nowMs st0).st.rows = st0.rows) ∧
    ((syncPrelude force nowMs st0).st.analyticsVersion = st0.analyticsVersion) ∧
    ((syncPrelude force nowMs st0).st.analyticsCache = st0.analyticsCache) := by
  have hwl : ∀ st : EngineState,
      ((watermarkFromLocal st).1.meta "next_sync_not_before" = st.meta "next_sync_not_before") ∧
      ((watermarkFromLocal st).1.rows = st.rows) ∧
      ((watermarkFromLocal st).1.analyticsVersion = st.analyticsVersion) ∧
      ((watermarkFromLocal st).1.analyticsCache = st.analyticsCache) := by
    intro st
    unfold watermarkFromLocal
    split <;> simp [setMetaS]
  have hwi : ∀ st : EngineState,
      ((watermarkInit st).1.meta "next_sync_not_before" = st.meta "next_sync_not_before") ∧
      ((watermarkInit st).1.rows = st.rows) ∧
      ((watermarkInit st).1.analyticsVersion = st.analyticsVersion) ∧
      ((watermarkInit st).1.analyticsCache = st.analyticsCache) := by
    intro st
    unfold watermarkInit
    split
    · split
      · exact hwl st
      · exact ⟨rfl, rfl, rfl, rfl⟩
    · exact hwl st
  unfold syncPrelude
  cases hm : selectMode force (setMetaS (setMetaS st0 "last_sync_error" none)
      "sync_started_at" (some (msToIso nowMs))) with
  | incremental =>
    simp only [hm]
    refine ⟨?_, ?_, ?_, ?_⟩ <;>
      simp [(hwi _).1, (hwi _).2.1, (hwi _).2.2.1, (hwi _).2.2.2, setMetaS]
  | full =>
    simp only [hm]
    refine ⟨?_, ?_, ?_, ?_⟩ <;> simp [setMetaS]


/-- Loop-start-to-loop-end facts, phrased on `syncLoopFrom`. -/
theorem syncLoopFrom_preserves (fetch : Nat → Except String PageResult) (nowMs : Nat)
    (force : Bool) (st0 : EngineState) :
    ((syncLoopFrom fetch nowMs force st0).1.meta "next_sync_not_before"
        = st0.meta "next_sync_not_before") ∧
    ((syncLoopFrom fetch nowMs force st0).1.analyticsVersion = st0.analyticsVersion) ∧
    ((syncLoopFrom fetch nowMs force st0).1.analyticsCache = st0.analyticsCache) ∧
    (∀ d, (lookupRow st0.rows d).isSome = true →
      (lookupRow (syncLoopFrom fetch nowMs force st0).1.rows d).isSome = true) := by
  have h1 := syncLoopGo_preserves fetch nowMs (syncPrelude force nowMs st0).mode
    (syncPrelude force nowMs st0).cursorTs (SYNC_MAX_PAGES_PER_RUN - 1)
    (syncPrelude force nowMs st0).page (syncPrelude force nowMs st0).totalPages 0
    (syncPrelude force nowMs st0).st
  have h2 := syncPrelude_preserves force nowMs st0
  refine ⟨?_, ?_, ?_, ?_⟩
  · show ((syncLoopGo fetch nowMs (syncPrelude force nowMs st0).mode
      (syncPrelude force nowMs st0).cursorTs (SYNC_MAX_PAGES_PER_RUN - 1)
      (syncPrelude force nowMs st0).page (syncPrelude force nowMs st0).totalPages 0
      (syncPrelude force nowMs st0).st).1).meta "next_sync_not_before" = _
    rw [h1.1, h2.1]
  · show ((syncLoopGo fetch nowMs (syncPrelude force nowMs st0).mode
      (syncPrelude force nowMs st0).cursorTs (SYNC_MAX_PAGES_PER_RUN - 1)
      (syncPrelude force nowMs st0).page (syncPrelude force nowMs st0).totalPages 0
      (syncPrelude force nowMs st0).st).1).analyticsVersion = _
    rw [h1.2.2.1, h2.2.2.1]
  · show ((syncLoopGo fetch nowMs (syncPrelude force nowMs st0).mode
      (syncPrelude force nowMs st0).cursorTs (SYNC_MAX_PAGES_PER_RUN - 1)
      (syncPrelude force nowMs st0).page (syncPrelude force nowMs st0).totalPages 0
      (syncPrelude force nowMs st0).st).1).analyticsCache = _
    rw [h1.2.2.2, h2.2.2.2]
  · intro d hd
    show (lookupRow ((syncLoopGo fetch nowMs (syncPrelude force nowMs st0).mode
      (syncPrelude force nowMs st0).cursorTs (SYNC_MAX_PAGES_PER_RUN - 1)
      (syncPrelude force nowMs st0).page (syncPrelude force nowMs st0).totalPages 0
      (syncPrelude force nowMs st0).st).1).rows d).isSome = true
    apply syncLoopGo_rows_mono
    rw [h2.2.1]
    exact hd

/-- C8: a sync run that fails with a rate-limit error persists
`nextSyncNotBefore = now + 2h` and the descriptive error message; any other
failure records the raw error message and leaves the cooldown untouched; in
both cases the failure handler leaves the table exactly as the page loop left
it (no rollback — rows present before the run are still present), and the
analytics version is not bumped. -/
theorem sync_failed_postconditions (fetch : Nat → Except String PageResult) (nowMs : Nat)
    (force : Bool) (st0 : EngineState) (msg : String)
    (h : (syncRunBody fetch nowMs force st0).exit = .failed msg) :
    (isRateLimitError msg = true →
      (syncRunBody fetch nowMs force st0).state.meta "next_sync_not_before" =
          some (msToIso (nowMs + TWO_HOURS_MS)) ∧
      (syncRunBody fetch nowMs force st0).state.meta "last_sync_error" =
        some ("Rate limited by Soinda (429). Next retry after "
          ++ msToIso (nowMs + TWO_HOURS_MS))) ∧
    (isRateLimitError msg = false →
      (syncRunBody fetch nowMs force st0).state.meta "last_sync_error" = some msg ∧
      (syncRunBody fetch nowMs force st0).state.meta "next_sync_not_before" =
        st0.meta "next_sync_not_before") ∧
    ((syncRunBody fetch nowMs force st0).state.rows
        = (syncLoopFrom fetch nowMs force st0).1.rows) ∧
    (∀ d, (lookupRow st0.rows d).isSome = true →
      (lookupRow (syncRunBody fetch nowMs force st0).state.rows d).isSome = true) ∧
    ((syncRunBody fetch nowMs force st0).state.analyticsVersion = st0.analyticsVersion) := by
  have hP := syncLoopFrom_preserves fetch nowMs force st0
  cases hx : (syncLoopFrom fetch nowMs force st0).2.2 with
  | completed => simp [syncRunBody, hx] at h
  | interrupted => simp [syncRunBody, hx] at h
  | failed m =>
    have hm : m = msg := by simpa [syncRunBody, hx] using h
    subst hm
    constructor
    · intro hrl
      constructor
      · simp [syncRunBody, hx, hrl, setMetaS]
      · simp [syncRunBody, hx, hrl, setMetaS]
    constructor
    · intro hrl
      constructor
      · simp [syncRunBody, hx, hrl, setMetaS]
      · simp only [syncRunBody, hx]
        simp [hrl, setMetaS, hP.1]
    constructor
    · by_cases hrl : isRateLimitError m = true <;> simp [syncRunBody, hx, hrl, setMetaS]
    constructor
    · intro d hd
      have hrows : (syncRunBody fetch nowMs force st0).state.rows
          = (syncLoopFrom fetch nowMs force st0).1.rows := by
        by_cases hrl : isRateLimitError m = true <;> simp [syncRunBody, hx, hrl, setMetaS]
      rw [hrows]
      exact hP.2.2.2 d hd
    · by_cases hrl : isRateLimitError m = true <;>
        simp [syncRunBody, hx, hrl, setMetaS, hP.2.1]


/-- A fetch oracle that is rate-limited on every page. -/
def demoFetchRL : Nat → Except String PageResult :=
  fun _ => .error (rawErrorMessage .rateLimited)

/-- Witness for C8: a concrete run failing on a rate-limit error shows the
cooldown, the message, the untouched table and the unchanged version. -/
theorem sync_failed_postconditions_witness :
    (isRateLimitError (rawErrorMessage .rateLimited) = true →
      (syncRunBody demoFetchRL 5000 false demoState0).state.meta "next_sync_not_before" =
          some (msToIso (5000 + TWO_HOURS_MS)) ∧
      (syncRunBody demoFetchRL 5000 false demoState0).state.meta "last_sync_error" =
        some ("Rate limited by Soinda (429). Next retry after "
          ++ msToIso (5000 + TWO_HOURS_MS))) ∧
    (isRateLimitError (rawErrorMessage .rateLimited) = false →
      (syncRunBody demoFetchRL 5000 false demoState0).state.meta "last_sync_error" =
          some (rawErrorMessage .rateLimited) ∧
      (syncRunBody demoFetchRL 5000 false demoState0).state.meta "next_sync_not_before" =
        demoState0.meta "next_sync_not_before") ∧
    ((syncRunBody demoFetchRL 5000 false demoState0).state.rows
        = (syncLoopFrom demoFetchRL 5000 false demoState0).1.rows) ∧
    (∀ d, (lookupRow demoState0.rows d).isSome = true →
      (lookupRow (syncRunBody demoFetchRL 5000 false demoState0).state.rows d).isSome
        = true) ∧
    ((syncRunBody demoFetchRL 5000 false demoState0).state.analyticsVersion
        = demoState0.analyticsVersion) :=
  sync_failed_postconditions demoFetchRL 5000 false demoState0
    (rawErrorMessage .rateLimited) (by rfl)


/-! ### C3: the analytics cache and its version gating -/

/-- Every non-failing sync run bumps the analytics version by exactly one and
clears the cache. -/
theorem sync_nonfailed_bump (fetch : Nat → Except String PageResult) (nowMs : Nat)
    (force : Bool) (st : EngineState)
    (h : (syncRunBody fetch nowMs force st).exit = .completed ∨
         (syncRunBody fetch nowMs force st).exit = .interrupted) :
    (syncRunBody fetch nowMs force st).state.analyticsVersion = st.analyticsVersion + 1 ∧
    (syncRunBody fetch nowMs force st).state.analyticsCache = [] := by
  have hP := syncLoopFrom_preserves fetch nowMs force st
  cases hx : (syncLoopFrom fetch nowMs force st).2.2 with
  | failed m => simp [syncRunBody, hx] at h
  | completed =>
    constructor
    · simp only [syncRunBody, hx]
      by_cases hms : 0 < (syncLoopFrom fetch nowMs force st).2.1 <;>
        by_cases hmode : ((syncPrelude force nowMs st).mode == .full) = true <;>
          simp [hms, hmode, bumpAnalytics, setMetaS, hP.2.1]
    · simp only [syncRunBody, hx]
      by_cases hms : 0 < (syncLoopFrom fetch nowMs force st).2.1 <;>
        by_cases hmode : ((syncPrelude force nowMs st).mode == .full) = true <;>
          simp [hms, hmode, bumpAnalytics, setMetaS]
  | interrupted =>
    constructor
    · simp only [syncRunBody, hx]
      by_cases hms : 0 < (syncLoopFrom fetch nowMs force st).2.1 <;>
        simp [hms, bumpAnalytics, setMetaS, hP.2.1]
    · simp only [syncRunBody, hx]
      by_cases hms : 0 < (syncLoopFrom fetch nowMs force st).2.1 <;>
        simp [hms, bumpAnalytics, setMetaS]


/-- C3: the analytics cache is gated by version and TTL, and the version
counter is bumped exactly once by every successful store-mutation batch.
Conjuncts: (i) a call is served from cache exactly when a cached entry for
the canonical key has the current version and is younger than the TTL;
(ii) such a hit returns the cached value and leaves the state unchanged;
(iii) any other call recomputes from the store and replaces the cache entry;
(iv) a non-failing sync run bumps the version exactly once (and clears the
cache); (v) a catalog reset bumps the version exactly once (and clears the
cache); (vi)/(vii) a sync completion or reset between two identical calls
forces the second call to recompute, at any call time (hence even within the
TTL window). -/
theorem analytics_cache_version_gating :
    (∀ (f : QueryFilters) (nowMs : Nat) (st : EngineState),
      ((querySoindaAnalytics f nowMs st).2.2 = true ↔
        ∃ e, lookupCache st.analyticsCache (canonKey f) = some e ∧
          e.version = st.analyticsVersion ∧ nowMs - e.ts < ANALYTICS_CACHE_TTL_MS)) ∧
    (∀ (f : QueryFilters) (nowMs : Nat) (st : EngineState) (e : AnalyticsEntry),
      lookupCache st.analyticsCache (canonKey f) = some e →
      e.version = st.analyticsVersion → nowMs - e.ts < ANALYTICS_CACHE_TTL_MS →
      querySoindaAnalytics f nowMs st = (e.value, st, true)) ∧
    (∀ (f : QueryFilters) (nowMs : Nat) (st : EngineState),
      (querySoindaAnalytics f nowMs st).2.2 = false →
      (querySoindaAnalytics f nowMs st).1 = computeAnalytics f st.rows ∧
      (querySoindaAnalytics f nowMs st).2.1.analyticsCache =
        setCache st.analyticsCache (canonKey f)
          { ts := nowMs, version := st.analyticsVersion,
            value := computeAnalytics f st.rows } ∧
      (querySoindaAnalytics f nowMs st).2.1.rows = st.rows ∧
      (querySoindaAnalytics f nowMs st).2.1.meta = st.meta ∧
      (querySoindaAnalytics f nowMs st).2.1.analyticsVersion = st.analyticsVersion) ∧
    (∀ (fetch : Nat → Except String PageResult) (nowMs : Nat) (force : Bool)
        (st : EngineState),
      ((syncRunBody fetch nowMs force st).exit = .completed ∨
        (syncRunBody fetch nowMs force st).exit = .interrupted) →
      (syncRunBody fetch nowMs force st).state.analyticsVersion = st.analyticsVersion + 1 ∧
      (syncRunBody fetch nowMs force st).state.analyticsCache = []) ∧
    (∀ st : EngineState, (resetSoindaCatalog st).analyticsVersion = st.analyticsVersion + 1 ∧
      (resetSoindaCatalog st).analyticsCache = []) ∧
    (∀ (f : QueryFilters) (n1 n2 nowMs : Nat) (fetch : Nat → Except String PageResult)
        (force : Bool) (st : EngineState),
      ((syncRunBody fetch nowMs force (querySoindaAnalytics f n1 st).2.1).exit = .completed ∨
       (syncRunBody fetch nowMs force (querySoindaAnalytics f n1 st).2.1).exit
          = .interrupted) →
      (querySoindaAnalytics f n2
        (syncRunBody fetch nowMs force (querySoindaAnalytics f n1 st).2.1).state).2.2
        = false) ∧
    (∀ (f : QueryFilters) (n1 n2 : Nat) (st : EngineState),
      (querySoindaAnalytics f n2
        (resetSoindaCatalog (querySoindaAnalytics f n1 st).2.1)).2.2 = false) := by
  have hflag : ∀ (f : QueryFilters) (nowMs : Nat) (st : EngineState),
      ((querySoindaAnalytics f nowMs st).2.2 = true ↔
        ∃ e, lookupCache st.analyticsCache (canonKey f) = some e ∧
          e.version = st.analyticsVersion ∧ nowMs - e.ts < ANALYTICS_CACHE_TTL_MS) := by
    intro f nowMs st
    cases hl : lookupCache st.analyticsCache (canonKey f) with
    | none => simp [querySoindaAnalytics, hl]
    | some e =>
      by_cases hv : e.version = st.analyticsVersion <;>
        by_cases ht : nowMs - e.ts < ANALYTICS_CACHE_TTL_MS <;>
          simp [querySoindaAnalytics, hl, hv, ht]
  refine ⟨hflag, ?_, ?_, sync_nonfailed_bump, ?_, ?_, ?_⟩
  · intro f nowMs st e hl hv ht
    simp [querySoindaAnalytics, hl, hv, ht]
  · intro f nowMs st hmiss
    cases hl : lookupCache st.analyticsCache (canonKey f) with
    | none => simp [querySoindaAnalytics, hl]
    | some e =>
      by_cases hv : e.version = st.analyticsVersion <;>
        by_cases ht : nowMs - e.ts < ANALYTICS_CACHE_TTL_MS
      · simp [querySoindaAnalytics, hl, hv, ht] at hmiss
      · simp [querySoindaAnalytics, hl, hv, ht]
      · simp [querySoindaAnalytics, hl, hv, ht]
      · simp [querySoindaAnalytics, hl, hv, ht]
  · intro st
    exact ⟨rfl, rfl⟩
  · intro f n1 n2 nowMs fetch force st hexit
    have hc := (sync_nonfailed_bump fetch nowMs force (querySoindaAnalytics f n1 st).2.1
      hexit).2
    cases hb : (querySoindaAnalytics f n2
        (syncRunBody fetch nowMs force (querySoindaAnalytics f n1 st).2.1).state).2.2 with
    | false => rfl
    | true =>
      exfalso
      have hstuck := (hflag f n2 _).mp hb
      rw [hc] at hstuck
      simp [lookupCache] at hstuck
  · intro f n1 n2 st
    cases hb : (querySoindaAnalytics f n2
        (resetSoindaCatalog (querySoindaAnalytics f n1 st).2.1)).2.2 with
    | false => rfl
    | true =>
      exfalso
      have hstuck := (hflag f n2 _).mp hb
      simp [resetSoindaCatalog, lookupCache] at hstuck


/-- The empty filter set. -/
def demoFilters : QueryFilters :=
  { q := none, tld := none, available := none, columnFilters := [] }

/-- A cache entry stored at time 100 under version 0. -/
def demoEntry : AnalyticsEntry :=
  { ts := 100, version := 0, value := computeAnalytics demoFilters [] }

/-- A state whose cache holds `demoEntry` for the empty filters. -/
def demoCachedState : EngineState :=
  { rows := [], meta := fun _ => none, analyticsVersion := 0,
    analyticsCache := [(canonKey demoFilters, demoEntry)] }

/-- Witness for C3: at concrete inputs, a fresh matching entry is served from
cache, and a completed sync between two identical calls forces the second
call to recompute. -/
theorem analytics_cache_version_gating_witness :
    querySoindaAnalytics demoFilters 150 demoCachedState =
      (demoEntry.value, demoCachedState, true) ∧
    (querySoindaAnalytics demoFilters 1
      (syncRunBody demoFetchDone 5000 false
        (querySoindaAnalytics demoFilters 0 demoState0).2.1).state).2.2 = false := by
  constructor
  · exact analytics_cache_version_gating.2.1 demoFilters 150 demoCachedState demoEntry
      (by rfl) (by rfl) (by decide)
  · exact analytics_cache_version_gating.2.2.2.2.2.1 demoFilters 0 1 5000 demoFetchDone
      false demoState0 (Or.inl (by rfl))


/-! ### C6: retry and backoff of the page fetcher -/

/-- A response the loop retries after sleeping: not OK, and either 429 or a
5xx. -/
def retryableResp (r : HttpResp) : Bool :=
  !respOk r && (r.status == 429 || decide (500 ≤ r.status))

/-- The wait the loop performs for a retryable response at a given attempt. -/
def stepWait (i : Nat) (r : HttpResp) : ℚ :=
  if r.status == 429 then wait429 i r.retryAfter else wait5xx i

/-- The waits performed over the first `i` attempts of a transcript. -/
def waitsUpTo (resp : Nat → HttpResp) (i : Nat) : List ℚ :=
  (List.range i).map (fun j => stepWait j (resp j))

/-- Appending the next wait to a wait prefix. -/
theorem waits_snoc_shift (resp : Nat → HttpResp) (attempt k : Nat) (waits : List ℚ)
    (w0 : ℚ) (hw0 : w0 = stepWait attempt (resp attempt)) :
    waits ++ [w0] ++
        (List.range k).map (fun j => stepWait (attempt + 1 + j) (resp (attempt + 1 + j))) =
      waits ++ (List.range (k + 1)).map (fun j => stepWait (attempt + j) (resp (attempt + j)))
      := by
  subst hw0
  rw [List.range_succ_eq_map, List.map_cons, List.map_map, Nat.add_zero,
    List.append_assoc, List.singleton_append]
  congr 1
  congr 1
  apply List.map_congr_left
  intro j hj
  have harr : attempt + 1 + j = attempt + Nat.succ j := by omega
  simp only [Function.comp_apply]
  rw [harr]

/-- Skipping `k` retryable attempts: the loop sleeps the per-attempt waits,
carries the last status along, and continues. -/
theorem fetchRawGo_skip (resp : Nat → HttpResp) :
    ∀ (k fuel attempt lastStatus : Nat) (waits : List ℚ),
      (∀ j, j < k → retryableResp (resp (attempt + j)) = true) →
      fetchRawGo resp (fuel + k) attempt lastStatus waits =
        fetchRawGo resp fuel (attempt + k)
          (if k = 0 then lastStatus else (resp (attempt + k - 1)).status)
          (waits ++ (List.range k).map (fun j => stepWait (attempt + j) (resp (attempt + j))))
      := by
  intro k
  induction k with
  | zero => intro fuel attempt lastStatus waits _; simp
  | succ k ih =>
    intro fuel attempt lastStatus waits h
    have h0 : retryableResp (resp attempt) = true := by
      simpa using h 0 (Nat.succ_pos k)
    have hnotok : respOk (resp attempt) = false := by
      simp only [retryableResp, Bool.and_eq_true, Bool.not_eq_true'] at h0
      exact h0.1
    have hshift : ∀ j, j < k → retryableResp (resp (attempt + 1 + j)) = true := by
      intro j hj
      have := h (j + 1) (by omega)
      simpa [Nat.add_comm, Nat.add_left_comm, Nat.add_assoc] using this
    have hstep : fuel + (k + 1) = (fuel + k) + 1 := by omega
    rw [hstep]
    simp only [fetchRawGo, hnotok, Bool.false_eq_true, if_false]
    have harith1 : attempt + 1 + k = attempt + (k + 1) := by omega
    have hifeq : (if k = 0 then (resp attempt).status
          else (resp (attempt + (k + 1) - 1)).status) =
        (if k + 1 = 0 then lastStatus else (resp (attempt + (k + 1) - 1)).status) := by
      rw [if_neg (Nat.succ_ne_zero k)]
      by_cases hk : k = 0
      · subst hk
        simp
      · rw [if_neg hk]
    by_cases h429 : ((resp attempt).status == 429) = true
    · rw [if_pos h429,
        ih fuel (attempt + 1) (resp attempt).status
          (waits ++ [wait429 attempt (resp attempt).retryAfter]) hshift,
        harith1, hifeq,
        waits_snoc_shift resp attempt k waits _ (by simp [stepWait, h429])]
    · have h5xx : (500 ≤ (resp attempt).status) := by
        simp only [retryableResp, Bool.and_eq_true, Bool.or_eq_true, h429] at h0
        rcases h0.2 with hc | hc
        · exact absurd hc (by simp [h429])
        · simpa using hc
      rw [if_neg (by simpa using h429), if_pos (by simpa using h5xx),
        ih fuel (attempt + 1) (resp attempt).status (waits ++ [wait5xx attempt]) hshift,
        harith1, hifeq,
        waits_snoc_shift resp attempt k waits _ (by simp [stepWait, h429])]

/-- C6: on HTTP 429 the fetcher waits the Retry-After value clamped to
[1s, 120s] when present, else exponential backoff from 2s capped at 120s; on
HTTP >= 500 it backs off exponentially from 1s capped at 30s; both retry up to
the ceiling of 8 retries, failing with the rate-limit error when the last
status was 429 and the unavailable error otherwise; any other non-2xx status
is rejected immediately with no further retry and no further wait. -/
theorem fetch_retry_backoff (resp : Nat → HttpResp) (i : Nat)
    (hle : i ≤ MAX_RETRIES)
    (hpre : ∀ j, j < i → retryableResp (resp j) = true) :
    (respOk (resp i) = true →
      fetchExternalDomainsRaw resp = (.ok (resp i).payload, waitsUpTo resp i)) ∧
    (respOk (resp i) = false → ((resp i).status == 429) = false →
      ¬ (500 ≤ (resp i).status) →
      fetchExternalDomainsRaw resp =
        (.error (.rejected (resp i).status), waitsUpTo resp i)) ∧
    ((∀ j, j ≤ MAX_RETRIES → retryableResp (resp j) = true) →
      fetchExternalDomainsRaw resp =
        (.error (if ((resp MAX_RETRIES).status == 429) = true then RawError.rateLimited
          else RawError.unavailable (resp MAX_RETRIES).status),
         waitsUpTo resp (MAX_RETRIES + 1)) ∧
      (waitsUpTo resp (MAX_RETRIES + 1)).length = MAX_RETRIES + 1) ∧
    (∀ j r, stepWait j r =
      if r.status == 429 then wait429 j r.retryAfter else wait5xx j) := by
  have hpre0 : ∀ j, j < i → retryableResp (resp (0 + j)) = true := by
    intro j hj; simpa using hpre j hj
  refine ⟨?_, ?_, ?_, fun j r => rfl⟩
  · intro hok
    have hsplit : MAX_RETRIES + 1 = (MAX_RETRIES - i + 1) + i := by omega
    rw [fetchExternalDomainsRaw, hsplit,
      fetchRawGo_skip resp i (MAX_RETRIES - i + 1) 0 0 [] hpre0]
    simp only [Nat.zero_add, List.nil_append, fetchRawGo, hok, if_true, waitsUpTo]
  · intro hnotok h429 h5
    have hsplit : MAX_RETRIES + 1 = (MAX_RETRIES - i + 1) + i := by omega
    rw [fetchExternalDomainsRaw, hsplit,
      fetchRawGo_skip resp i (MAX_RETRIES - i + 1) 0 0 [] hpre0]
    simp only [Nat.zero_add, List.nil_append, fetchRawGo, hnotok, h429, h5,
      Bool.false_eq_true, if_false, waitsUpTo]
  · intro hall
    have hallpre : ∀ j, j < MAX_RETRIES + 1 → retryableResp (resp (0 + j)) = true := by
      intro j hj; simpa using hall j (by omega)
    constructor
    · have hsplit : MAX_RETRIES + 1 = 0 + (MAX_RETRIES + 1) := by omega
      rw [fetchExternalDomainsRaw, hsplit,
        fetchRawGo_skip resp (MAX_RETRIES + 1) 0 0 0 [] hallpre]
      simp only [Nat.zero_add, List.nil_append, fetchRawGo, exhaustedError,
        Nat.add_sub_cancel, Nat.succ_ne_zero, if_false, waitsUpTo]
    · simp [waitsUpTo]

/-- Concrete run of `fetch_retry_backoff`: a 404 on the first attempt is
rejected immediately with no waits. -/
theorem fetch_retry_backoff_witness :
    (0 : Nat) ≤ MAX_RETRIES ∧
      fetchExternalDomainsRaw (fun _ => ⟨404, none, .null⟩) =
        (.error (.rejected 404), []) := by
  refine ⟨by decide, ?_⟩
  have h := (fetch_retry_backoff (fun _ => ⟨404, none, .null⟩) 0 (by decide)
    (fun j hj => absurd hj (by omega))).2.1 (by decide) (by decide) (by decide)
  simpa [waitsUpTo] using h

/-! ### C2: the query predicate versus the direct (substring) reading -/

/-- A filter value containing no SQLite `LIKE` wildcard characters. -/
def noLikeWildcards (s : String) : Bool :=
  s.data.all (fun c => !(c == '%' || c == '_'))

/-- All filter values of a filter set are wildcard-free. -/
def filtersWildcardFree (f : QueryFilters) : Bool :=
  noLikeWildcards (filterNeedle (f.q.getD "")) &&
    f.columnFilters.all (fun kv => noLikeWildcards (filterNeedle kv.2))


/-- Unfolding `likeMatch` on a cons pattern. -/
theorem likeMatch_cons (p : Char) (ps h : List Char) :
    likeMatch (p :: ps) h =
      (if p = '%' then anySuffix (likeMatch ps) h
       else if p = '_' then
         match h with
         | [] => false
         | _ :: hs => likeMatch ps hs
       else
         match h with
         | [] => false
         | c :: hs => likeCharEq p c && likeMatch ps hs) := by
  rw [likeMatch.eq_def]

/-- The empty pattern matches only the empty subject. -/
theorem likeMatch_nil (h : List Char) : likeMatch [] h = h.isEmpty := by
  rw [likeMatch.eq_def]

/-- The empty pattern matches only via the empty suffix, which always exists. -/
theorem anySuffix_nilMatch (h : List Char) : anySuffix (likeMatch []) h = true := by
  induction h with
  | nil => rfl
  | cons c hs ih => simp [anySuffix, ih]

/-- A bare `%` pattern matches anything. -/
theorem likeMatch_percent (h : List Char) : likeMatch ['%'] h = true := by
  rw [likeMatch_cons]
  simp [anySuffix_nilMatch]

/-- `anySuffix` succeeds exactly when some suffix satisfies the continuation. -/
theorem anySuffix_eq_true_iff (f : List Char → Bool) (h : List Char) :
    anySuffix f h = true ↔ ∃ h1 h2, h = h1 ++ h2 ∧ f h2 = true := by
  induction h with
  | nil =>
    simp only [anySuffix]
    constructor
    · intro hf; exact ⟨[], [], rfl, hf⟩
    · rintro ⟨h1, h2, he, hf⟩
      obtain ⟨rfl, rfl⟩ := List.append_eq_nil.mp he.symm
      exact hf
  | cons c hs ih =>
    simp only [anySuffix, Bool.or_eq_true, ih]
    constructor
    · rintro (hf | ⟨h1, h2, rfl, hf⟩)
      · exact ⟨[], c :: hs, rfl, hf⟩
      · exact ⟨c :: h1, h2, rfl, hf⟩
    · rintro ⟨h1, h2, he, hf⟩
      cases h1 with
      | nil =>
        left
        simp only [List.nil_append] at he
        rw [← he] at hf
        exact hf
      | cons a h1t =>
        right
        rw [List.cons_append] at he
        injection he with hca hrest
        exact ⟨h1t, h2, hrest, hf⟩

/-- A wildcard-free pattern segment consumes a case-insensitively equal block
of the subject, and the rest of the pattern matches the rest. -/
theorem likeMatch_append_of_plain (ps : List Char) :
    ∀ ns : List Char, (∀ c ∈ ns, ¬(c = '%' ∨ c = '_')) → ∀ h,
      (likeMatch (ns ++ ps) h = true ↔
        ∃ h1 h2, h = h1 ++ h2 ∧ ns.map Char.toLower = h1.map Char.toLower ∧
          likeMatch ps h2 = true) := by
  intro ns
  induction ns with
  | nil =>
    intro _ h
    simp only [List.nil_append, List.map_nil]
    constructor
    · intro hm; exact ⟨[], h, rfl, rfl, hm⟩
    · rintro ⟨h1, h2, rfl, hmap, hm⟩
      have h1nil : h1 = [] := by
        cases h1 with
        | nil => rfl
        | cons a t => simp at hmap
      subst h1nil
      simpa using hm
  | cons p ns ih =>
    intro hns h
    have hp : ¬(p = '%' ∨ p = '_') := hns p (by simp)
    have hns2 : ∀ c ∈ ns, ¬(c = '%' ∨ c = '_') := fun c hc => hns c (by simp [hc])
    rw [List.cons_append, likeMatch_cons,
      if_neg (fun hh => hp (Or.inl hh)), if_neg (fun hh => hp (Or.inr hh))]
    cases h with
    | nil =>
      simp only [Bool.false_eq_true, false_iff]
      rintro ⟨h1, h2, he, hmap, _⟩
      obtain ⟨rfl, rfl⟩ := List.append_eq_nil.mp he.symm
      simp at hmap
    | cons c hs =>
      simp only [Bool.and_eq_true, ih hns2, likeCharEq, beq_iff_eq]
      constructor
      · rintro ⟨hpc, h1, h2, rfl, hmap, hm⟩
        exact ⟨c :: h1, h2, rfl, by simp [hpc, hmap], hm⟩
      · rintro ⟨h1, h2, he, hmap, hm⟩
        cases h1 with
        | nil => simp at hmap
        | cons a h1t =>
          rw [List.cons_append] at he
          injection he with hca hrest
          simp only [List.map_cons, List.cons.injEq] at hmap
          subst hca
          exact ⟨by rw [hmap.1], h1t, h2, hrest, hmap.2, hm⟩

/-- For a wildcard-free needle, the `LIKE '%needle%'` test is exactly the
case-insensitive substring test. -/
theorem likeContains_eq_containsCI (needle : String)
    (hw : noLikeWildcards needle = true) (hay : String) :
    likeContains hay needle = containsCI hay needle := by
  have hns : ∀ c ∈ needle.data, ¬(c = '%' ∨ c = '_') := by
    intro c hc
    have := List.all_eq_true.mp hw c hc
    simpa using this
  have key : likeContains hay needle = true ↔ containsCI hay needle = true := by
    rw [likeContains, List.cons_append, likeMatch_cons, if_pos rfl, anySuffix_eq_true_iff]
    constructor
    · rintro ⟨h1, h2, he, hm⟩
      obtain ⟨a, b, rfl, hmap, _⟩ := (likeMatch_append_of_plain ['%'] needle.data hns h2).mp hm
      rw [containsCI, decide_eq_true_iff]
      refine ⟨h1.map Char.toLower, b.map Char.toLower, ?_⟩
      rw [he]
      simp [hmap]
    · intro hc
      rw [containsCI, decide_eq_true_iff] at hc
      obtain ⟨s, t, hst⟩ := hc
      obtain ⟨l1, l2, hl, hm1, hm2⟩ := List.map_eq_append_iff.mp hst.symm
      obtain ⟨u, v, hu, hmu, hmv⟩ := List.map_eq_append_iff.mp hm1
      refine ⟨u, v ++ l2, by rw [hl, hu, List.append_assoc], ?_⟩
      exact (likeMatch_append_of_plain ['%'] needle.data hns (v ++ l2)).mpr
        ⟨v, l2, rfl, hmv.symm, likeMatch_percent l2⟩
  cases hL : likeContains hay needle <;> cases hR : containsCI hay needle
  · rfl
  · exact absurd (key.mpr hR) (by simp [hL])
  · exact absurd (key.mp hL) (by simp [hR])
  · rfl

/-- `List.all` is determined by the values of the predicate on the members. -/
theorem all_congr_mem (l : List α) (p q : α → Bool) (h : ∀ x ∈ l, p x = q x) :
    l.all p = l.all q := by
  induction l with
  | nil => rfl
  | cons a t ih =>
    simp only [List.all_cons, h a (by simp), ih (fun x hx => h x (by simp [hx]))]

/-- For wildcard-free filter values, the SQL `WHERE` predicate coincides with
the direct substring reading. -/
theorem rowMatchesSql_eq_spec (f : QueryFilters) (r : DbRow)
    (hw : filtersWildcardFree f = true) :
    rowMatchesSql f r = specMatches f r := by
  rw [filtersWildcardFree, Bool.and_eq_true] at hw
  have hcols := List.all_eq_true.mp hw.2
  rw [rowMatchesSql, specMatches]
  simp only [likeContains_eq_containsCI _ hw.1]
  have hall := all_congr_mem f.columnFilters
    (fun kv =>
      let needle := filterNeedle kv.2
      needle == "" ||
        (if kv.1 == "domain" then likeContains (jsLower r.domain) needle
         else likeContains (jsLower (((jlookup r.raw_json kv.1).bind sqlJsonText).getD ""))
           needle))
    (fun kv =>
      let needle := filterNeedle kv.2
      needle == "" ||
        (if kv.1 == "domain" then containsCI (jsLower r.domain) needle
         else containsCI (jsLower (((jlookup r.raw_json kv.1).bind sqlJsonText).getD ""))
           needle))
    (fun kv hkv => by
      have hwkv : noLikeWildcards (filterNeedle kv.2) = true := by
        simpa using hcols kv hkv
      simp only [likeContains_eq_containsCI _ hwkv])
  rw [hall]

/-- C2: for wildcard-free filter values the query returns `total` equal to the
count of stored records satisfying the filter predicate evaluated directly
(case-insensitive substring on domain and raw columns, exact TLD, tri-state
availability), pages with `offset = (page - 1) * pageSize`, and
`hasMore = offset + pageSize < total`. -/
theorem query_counts_direct_predicate (opts : QueryOpts) (rows : List DbRow)
    (hw : filtersWildcardFree opts.filters = true) :
    (querySoindaDomains opts rows).total =
        (rows.filter (specMatches opts.filters)).length ∧
      (querySoindaDomains opts rows).hasMore =
        decide ((opts.page - 1) * opts.perPage + opts.perPage <
          (rows.filter (specMatches opts.filters)).length) ∧
      (querySoindaDomains opts rows).data =
        ((insertionSortB (queryOrder opts.sortBy opts.sortDir)
            (rows.filter (specMatches opts.filters))).drop
          ((opts.page - 1) * opts.perPage)).take opts.perPage := by
  have hfeq : rows.filter (rowMatchesSql opts.filters) =
      rows.filter (specMatches opts.filters) :=
    List.filter_congr (fun r _ => rowMatchesSql_eq_spec opts.filters r hw)
  refine ⟨?_, ?_, ?_⟩ <;> simp only [querySoindaDomains, hfeq]

/-- A stored row whose raw column `col` holds `"aXb"`. -/
def c2Row : DbRow :=
  { domain := "example.com"
    tld := "com"
    available := none
    price := none
    currency := none
    status := none
    raw_json := [("col", .str "aXb")]
    updated_at := "0" }

/-- Query options filtering `col` by the wildcard value `"a%b"`. -/
def c2Opts : QueryOpts :=
  { page := 1
    perPage := 10
    q := none
    tld := none
    available := none
    columnFilters := [("col", "a%b")]
    sortBy := none
    sortDir := none }

/-- Counterexample to C2 as stated: with the column-filter value `"a%b"`, the
query's `total` counts the row `"aXb"` (SQL `LIKE` treats `%` as a wildcard),
but the direct case-insensitive-substring reading of the predicate does not
match it, so `total` differs from the direct count. -/
theorem query_like_wildcard_counterexample :
    (querySoindaDomains c2Opts [c2Row]).total = 1 ∧
      (List.filter (specMatches c2Opts.filters) [c2Row]).length = 0 := by
  constructor <;> rfl

/-- Wildcard-free query options: filtering `col` by `"ax"`. -/
def c2OptsPlain : QueryOpts :=
  { page := 1
    perPage := 10
    q := none
    tld := none
    available := none
    columnFilters := [("col", "ax")]
    sortBy := none
    sortDir := none }

/-- Concrete run of `query_counts_direct_predicate` on a one-row table with a
wildcard-free column filter. -/
theorem query_counts_direct_predicate_witness :
    filtersWildcardFree c2OptsPlain.filters = true ∧
      (querySoindaDomains c2OptsPlain [c2Row]).total =
        (List.filter (specMatches c2OptsPlain.filters) [c2Row]).length := by
  refine ⟨by rfl, ?_⟩
  exact (query_counts_direct_predicate c2OptsPlain [c2Row] (by rfl)).1

/-! ### C5: extractor scoring and selection -/

/-- The claim's per-element score: 2 for a domain-shaped string; for a
non-empty record, 3 if some key is domain-ish plus 1 if some value is a
domain-shaped string; 0 otherwise. -/
def claimItemScore (item : JsonVal) : Nat :=
  if strWithDomain item then 2
  else
    let row := asRecordKV item
    if row.isEmpty then 0
    else
      (if row.any (fun f => domainishKey (jsLower f.1)) then 3 else 0) +
        (if someValueWithDomain row then 1 else 0)

/-- The loop body of `scoreArray`. -/
def scoreStep (score : Nat) (item : JsonVal) : Nat :=
  if strWithDomain item then score + 2
  else
    let row := asRecordKV item
    if row.isEmpty then score
    else
      let score := if row.any (fun f => domainishKey (jsLower f.1)) then score + 3 else score
      if someValueWithDomain row then score + 1 else score

/-- One scoring step adds the claim's per-element score. -/
theorem scoreStep_eq (n : Nat) (a : JsonVal) :
    scoreStep n a = n + claimItemScore a := by
  rw [scoreStep, claimItemScore]
  by_cases h1 : strWithDomain a = true
  · simp [h1]
  · by_cases h2 : (asRecordKV a).isEmpty = true
    · simp [h1, h2]
    · by_cases h3 : ((asRecordKV a).any (fun f => domainishKey (jsLower f.1))) = true
      · by_cases h4 : someValueWithDomain (asRecordKV a) = true
        · simp only [h1, h2, h3, h4, Bool.false_eq_true, if_false, if_true]
        · simp only [h1, h2, h3, h4, Bool.false_eq_true, if_false, if_true]
      · by_cases h4 : someValueWithDomain (asRecordKV a) = true
        · simp only [h1, h2, h3, h4, Bool.false_eq_true, if_false, if_true]
        · simp only [h1, h2, h3, h4, Bool.false_eq_true, if_false]
          omega

/-- Folding the scoring step sums the per-element scores. -/
theorem foldl_scoreStep (items : List JsonVal) :
    ∀ n : Nat, items.foldl scoreStep n = n + (items.map claimItemScore).sum := by
  induction items with
  | nil => intro n; simp
  | cons a t ih =>
    intro n
    rw [List.foldl_cons, ih, List.map_cons, List.sum_cons, scoreStep_eq]
    omega

/-- `scoreArray` is the sum of the claim's per-element scores. -/
theorem scoreArray_eq_sum (items : List JsonVal) :
    scoreArray items = (items.map claimItemScore).sum := by
  have h : scoreArray items = items.foldl scoreStep 0 := rfl
  rw [h, foldl_scoreStep]
  omega

/-- Inserting into a list permutes consing onto it. -/
theorem orderedInsertB_perm (le : α → α → Bool) (a : α) (l : List α) :
    List.Perm (orderedInsertB le a l) (a :: l) := by
  induction l with
  | nil => exact List.Perm.refl _
  | cons b t ih =>
    rw [orderedInsertB]
    by_cases hab : le a b = true
    · rw [if_pos hab]
    · rw [if_neg hab]
      exact (List.Perm.cons b ih).trans (List.Perm.swap a b t)

/-- The insertion sort permutes its input. -/
theorem insertionSortB_perm (le : α → α → Bool) (l : List α) :
    List.Perm (insertionSortB le l) l := by
  induction l with
  | nil => exact List.Perm.refl _
  | cons a t ih =>
    rw [insertionSortB]
    exact (orderedInsertB_perm le a (insertionSortB le t)).trans (List.Perm.cons a ih)

/-- For a total transitive comparator, the head of the insertion sort is a
minimum of the input. -/
theorem insertionSortB_head_le (le : α → α → Bool)
    (htot : ∀ a b, le a b = true ∨ le b a = true)
    (htrans : ∀ a b c, le a b = true → le b c = true → le a c = true) :
    ∀ l h t, insertionSortB le l = h :: t → ∀ x ∈ l, le h x = true := by
  intro l
  induction l with
  | nil =>
    intro h t hst x hx
    rw [insertionSortB] at hst
    exact absurd hst (by simp)
  | cons a l ih =>
    intro h t hst x hx
    rw [insertionSortB] at hst
    cases hsl : insertionSortB le l with
    | nil =>
      rw [hsl] at hst
      rw [orderedInsertB] at hst
      injection hst with h1 h2
      have hperm := insertionSortB_perm le l
      rw [hsl] at hperm
      have hlnil : l = [] := hperm.symm.eq_nil
      subst hlnil
      have hxa : x = a := by simpa using hx
      rw [← h1, hxa]
      rcases htot a a with hh | hh <;> exact hh
    | cons b t2 =>
      rw [hsl] at hst
      have hbx : ∀ y ∈ l, le b y = true := ih b t2 hsl
      rw [orderedInsertB] at hst
      by_cases hab : le a b = true
      · rw [if_pos hab] at hst
        injection hst with h1 h2
        rw [← h1]
        rcases List.mem_cons.mp hx with rfl | hxl
        · rcases htot x x with hh | hh <;> exact hh
        · exact htrans a b x hab (hbx x hxl)
      · rw [if_neg hab] at hst
        injection hst with h1 h2
        rw [← h1]
        rcases List.mem_cons.mp hx with rfl | hxl
        · rcases htot x b with hh | hh
          · exact absurd hh hab
          · exact hh
        · exact hbx x hxl

/-- The ranking comparator is total. -/
theorem rankLe_total (a b : List JsonVal × Nat) :
    rankLe a b = true ∨ rankLe b a = true := by
  simp only [rankLe, Bool.or_eq_true, Bool.and_eq_true, decide_eq_true_eq, beq_iff_eq]
  omega

/-- The ranking comparator is transitive. -/
theorem rankLe_trans (a b c : List JsonVal × Nat)
    (hab : rankLe a b = true) (hbc : rankLe b c = true) : rankLe a c = true := by
  simp only [rankLe, Bool.or_eq_true, Bool.and_eq_true, decide_eq_true_eq, beq_iff_eq]
    at hab hbc ⊢
  omega

/-- C5: `scoreArray` sums the claim's per-element scores (+2 per
domain-shaped string element, +3 per record element with a domain-ish key, +1
per record element with some domain-shaped string value); when any array was
collected, the extractor returns a collected array that is maximal by score
with ties broken by length, and when no candidate scores above zero the
returned array is a longest collected array. -/
theorem extractor_scoring_and_selection (payload : JsonVal)
    (hne : collectArrays payload ≠ []) :
    (∀ items : List JsonVal, scoreArray items = (items.map claimItemScore).sum) ∧
      extractRows payload ∈ collectArrays payload ∧
      (∀ a ∈ collectArrays payload,
        scoreArray a < scoreArray (extractRows payload) ∨
          (scoreArray a = scoreArray (extractRows payload) ∧
            a.length ≤ (extractRows payload).length)) ∧
      ((∀ a ∈ collectArrays payload, scoreArray a = 0) →
        ∀ a ∈ collectArrays payload, a.length ≤ (extractRows payload).length) := by
  have hie : (collectArrays payload).isEmpty = false := by
    cases hc : collectArrays payload with
    | nil => exact absurd hc hne
    | cons x xs => rfl
  have hLne : (collectArrays payload).map (fun items => (items, scoreArray items)) ≠ [] := by
    intro h
    exact hne (List.map_eq_nil_iff.mp h)
  cases hr : insertionSortB rankLe
      ((collectArrays payload).map (fun items => (items, scoreArray items))) with
  | nil =>
    have hperm := insertionSortB_perm rankLe
      ((collectArrays payload).map (fun items => (items, scoreArray items)))
    rw [hr] at hperm
    exact absurd hperm.symm.eq_nil hLne
  | cons top rest =>
    have hex : extractRows payload = top.1 := by
      simp only [extractRows, hie, Bool.false_eq_true, if_false, hr, ite_self]
    have htopmem : top ∈
        (collectArrays payload).map (fun items => (items, scoreArray items)) := by
      refine (insertionSortB_perm rankLe _).mem_iff.mp ?_
      rw [hr]
      exact List.mem_cons_self _ _
    obtain ⟨a0, ha0, ha0e⟩ := List.mem_map.mp htopmem
    have htop1 : top.1 ∈ collectArrays payload := by
      rw [← ha0e]
      exact ha0
    have htop2 : top.2 = scoreArray top.1 := by
      rw [← ha0e]
    have hmax : ∀ a ∈ collectArrays payload,
        scoreArray a < scoreArray (extractRows payload) ∨
          (scoreArray a = scoreArray (extractRows payload) ∧
            a.length ≤ (extractRows payload).length) := by
      intro a ha
      have hmem : (a, scoreArray a) ∈
          (collectArrays payload).map (fun items => (items, scoreArray items)) :=
        List.mem_map_of_mem _ ha
      have hle := insertionSortB_head_le rankLe rankLe_total rankLe_trans
        _ top rest hr (a, scoreArray a) hmem
      rw [rankLe] at hle
      simp only [Bool.or_eq_true, Bool.and_eq_true, decide_eq_true_eq, beq_iff_eq] at hle
      rw [hex, ← htop2]
      exact hle
    refine ⟨scoreArray_eq_sum, by rw [hex]; exact htop1, hmax, ?_⟩
    intro hz a ha
    rcases hmax a ha with hlt | ⟨_, hlen⟩
    · rw [hz a ha, hz (extractRows payload) (by rw [hex]; exact htop1)] at hlt
      exact absurd hlt (by omega)
    · exact hlen

/-- Counterexample to C5's parenthetical: a payload whose only array is empty
makes the extractor return an empty selection although an array exists. -/
theorem extractor_empty_selection_counterexample :
    collectArrays (.obj [("a", .arr [])]) = [[]] ∧
      extractRows (.obj [("a", .arr [])]) = [] := ⟨rfl, rfl⟩

/-- A payload with a single catalog array. -/
def c5Payload : JsonVal := .obj [("rows", .arr [.str "example.com"])]

/-- Concrete run of `extractor_scoring_and_selection`. -/
theorem extractor_scoring_and_selection_witness :
    collectArrays c5Payload ≠ [] ∧ extractRows c5Payload ∈ collectArrays c5Payload := by
  have hval : collectArrays c5Payload = [[JsonVal.str "example.com"]] := rfl
  have hne : collectArrays c5Payload ≠ [] := by
    rw [hval]
    simp
  exact ⟨hne, (extractor_scoring_and_selection c5Payload hne).2.1⟩

/-! ### C10: non-DNS-valid domain values are stored verbatim -/

/-- `toNat` of `Char.ofNat` at a valid codepoint. -/
theorem char_toNat_ofNat_valid (n : Nat) (h : n.isValidChar) :
    (Char.ofNat n).toNat = n := by
  rw [Char.ofNat, dif_pos h]
  rfl

/-- Characters are equal exactly when their codepoints are. -/
theorem char_eq_iff_toNat {a b : Char} : a = b ↔ a.toNat = b.toNat := by
  constructor
  · intro h; rw [h]
  · intro h
    exact Char.eq_of_val_eq (UInt32.toNat.inj h)

/-- Codepoint arithmetic of `Char.toLower`. -/
theorem toLower_toNat (c : Char) :
    (Char.toLower c).toNat =
      if 65 ≤ c.toNat ∧ c.toNat ≤ 90 then c.toNat + 32 else c.toNat := by
  rw [Char.toLower]
  by_cases h : 65 ≤ c.toNat ∧ c.toNat ≤ 90
  · rw [if_pos h, if_pos h]
    exact char_toNat_ofNat_valid (c.toNat + 32) (Or.inl (by omega))
  · rw [if_neg h, if_neg h]

/-- ASCII lower-casing is idempotent. -/
theorem toLower_idem (c : Char) : (Char.toLower c).toLower = Char.toLower c := by
  rw [char_eq_iff_toNat, toLower_toNat, toLower_toNat]
  by_cases h : 65 ≤ c.toNat ∧ c.toNat ≤ 90
  · simp only [if_pos h]
    rw [if_neg (by omega)]
  · simp only [if_neg h]

/-- Whitespace-ness in terms of the codepoint. -/
theorem isWhitespace_toNat (c : Char) :
    c.isWhitespace =
      (decide (c.toNat = 32) || decide (c.toNat = 9) ||
        decide (c.toNat = 13) || decide (c.toNat = 10)) := by
  have e1 : decide (c = ' ') = decide (c.toNat = 32) :=
    decide_eq_decide.mpr char_eq_iff_toNat
  have e2 : decide (c = '\t') = decide (c.toNat = 9) :=
    decide_eq_decide.mpr char_eq_iff_toNat
  have e3 : decide (c = '\r') = decide (c.toNat = 13) :=
    decide_eq_decide.mpr char_eq_iff_toNat
  have e4 : decide (c = '\n') = decide (c.toNat = 10) :=
    decide_eq_decide.mpr char_eq_iff_toNat
  rw [Char.isWhitespace, e1, e2, e3, e4]

/-- Lower-casing does not change whether a character is whitespace. -/
theorem isWhitespace_toLower (c : Char) :
    (Char.toLower c).isWhitespace = c.isWhitespace := by
  rw [isWhitespace_toNat, isWhitespace_toNat, toLower_toNat]
  by_cases h : 65 ≤ c.toNat ∧ c.toNat ≤ 90
  · rw [if_pos h]
    have hfa : ∀ m : Nat, 65 ≤ m →
        (decide (m = 32) || decide (m = 9) ||
          decide (m = 13) || decide (m = 10)) = false := by
      intro m hm
      simp only [Bool.or_eq_false_iff, decide_eq_false_iff_not]
      omega
    rw [hfa _ (by omega), hfa _ (by omega)]
  · rw [if_neg h]

/-- Lower-casing twice is lower-casing once, at the list level. -/
theorem map_toLower_idem (l : List Char) :
    (l.map Char.toLower).map Char.toLower = l.map Char.toLower := by
  rw [List.map_map]
  apply List.map_congr_left
  intro a _
  simp only [Function.comp_apply]
  exact toLower_idem a

/-- `dropWhile` commutes with a map that preserves the predicate. -/
theorem dropWhile_map_comm (f : α → α) (p : α → Bool)
    (hp : ∀ a, p (f a) = p a) (l : List α) :
    List.dropWhile p (l.map f) = (List.dropWhile p l).map f := by
  induction l with
  | nil => rfl
  | cons a t ih =>
    rw [List.map_cons, List.dropWhile_cons, List.dropWhile_cons, hp a]
    by_cases hpa : p a = true
    · simp only [if_pos hpa]
      exact ih
    · simp only [if_neg hpa]
      rw [List.map_cons]

/-- Trimming commutes with lower-casing. -/
theorem trimList_map_toLower (l : List Char) :
    trimList (l.map Char.toLower) = (trimList l).map Char.toLower := by
  have hp : ∀ c : Char, wsChar (Char.toLower c) = wsChar c := fun c =>
    isWhitespace_toLower c
  rw [trimList, trimList, dropWhile_map_comm Char.toLower wsChar hp l,
    ← List.map_reverse, dropWhile_map_comm Char.toLower wsChar hp _,
    ← List.map_reverse]

/-- `dropWhile` shortens or keeps the length. -/
theorem length_dropWhile_le2 (p : α → Bool) (l : List α) :
    (l.dropWhile p).length ≤ l.length := by
  induction l with
  | nil => exact Nat.le_refl _
  | cons a t ih =>
    rw [List.dropWhile_cons]
    by_cases hpa : p a = true
    · simp only [if_pos hpa]
      exact Nat.le_trans ih (by simp)
    · simp only [if_neg hpa]
      exact Nat.le_refl _

/-- Dropping trailing matches preserves a match-free head. -/
theorem dropWhile_rdropWhile_of_clean (p : α → Bool) (m : List α)
    (hm : List.dropWhile p m = m) :
    List.dropWhile p (List.rdropWhile p m) = List.rdropWhile p m := by
  cases hx : List.rdropWhile p m with
  | nil => rfl
  | cons a t2 =>
    rw [List.dropWhile_cons]
    suffices h : p a = false by
      rw [h]
      simp
    obtain ⟨t, ht⟩ := List.rdropWhile_prefix p m
    rw [hx] at ht
    cases hwa : p a
    · rfl
    · rw [← ht, List.cons_append, List.dropWhile_cons, hwa, if_pos rfl] at hm
      have hle := length_dropWhile_le2 p (t2 ++ t)
      rw [hm] at hle
      simp at hle

/-- Trimming is idempotent. -/
theorem trimList_trimList (l : List Char) : trimList (trimList l) = trimList l := by
  have e : ∀ x : List Char,
      trimList x = List.rdropWhile wsChar (List.dropWhile wsChar x) := fun x => rfl
  have h1 : List.dropWhile wsChar (List.dropWhile wsChar l) = List.dropWhile wsChar l :=
    List.dropWhile_idempotent _ _
  rw [e, e, dropWhile_rdropWhile_of_clean wsChar _ h1, List.rdropWhile_idempotent]

/-- Lower-casing after trimming an already lower-cased trimmed string changes
nothing. -/
theorem jsLower_jsTrim_collapse (v : String) :
    jsLower (jsTrim (jsLower (jsTrim v))) = jsLower (jsTrim v) := by
  have hlist : (trimList ((trimList v.data).map Char.toLower)).map Char.toLower =
      (trimList v.data).map Char.toLower := by
    rw [trimList_map_toLower, trimList_trimList, map_toLower_idem]
  show String.mk ((trimList ((trimList v.data).map Char.toLower)).map Char.toLower) =
    String.mk ((trimList v.data).map Char.toLower)
  exact congrArg String.mk hlist

/-- `findSome?` skips a failing block of candidates. -/
theorem findSome?_append_none (f : α → Option β) (l1 l2 : List α)
    (h : ∀ x ∈ l1, f x = none) :
    List.findSome? f (l1 ++ l2) = List.findSome? f l2 := by
  induction l1 with
  | nil => rfl
  | cons a t ih =>
    rw [List.cons_append]
    rw [List.findSome?_cons]
    rw [h a (by simp)]
    exact ih (fun x hx => h x (by simp [hx]))

/-- The record `normalizeDomain` builds for an object row once the extracted
domain field is known. -/
def normalizedRecOf (item : List (String × JsonVal)) (rawDomain : String) :
    MarketplaceDomain :=
  { domain := jsLower (jsTrim rawDomain)
    tld := ((jsSplitDot (jsLower (jsTrim rawDomain))).getLast?).getD ""
    available :=
      (coalesceKeys item ["available", "is_available", "isAvailable", "com_available",
        "disponible", "libre", "disponibilidad"]).bind coerceBoolean
    price :=
      (coalesceKeys item ["price", "com_price", "amount", "precio", "registration_price",
        "registrationPrice", "sale_price", "salePrice"]).bind coerceNumber
    currency :=
      match coalesceKeys item ["currency", "currencyCode", "currency_code", "moneda"] with
      | some (.str c) => some c
      | _ => none
    status :=
      match coalesceKeys item ["status", "state", "pricingMode", "estado",
          "availability_status"] with
      | some (.str c) => some c
      | _ => none
    raw := item }

/-- On an object row, `normalizeDomain` is the extracted field fed into the
record builder. -/
theorem normalizeDomain_obj (item : List (String × JsonVal)) :
    normalizeDomain (.obj item) =
      (extractDomainField item).map (normalizedRecOf item) := by
  cases h : extractDomainField item with
  | none =>
    show (match extractDomainField item with
      | none => (none : Option MarketplaceDomain)
      | some rawDomain => some (normalizedRecOf item rawDomain)) = _
    rw [h]
    rfl
  | some d =>
    show (match extractDomainField item with
      | none => (none : Option MarketplaceDomain)
      | some rawDomain => some (normalizedRecOf item rawDomain)) = _
    rw [h]
    rfl

/-- C10: when an object row's value under a priority domain field name is a
string containing a dot but no `DOMAIN_REGEX` match (and every earlier
candidate key misses), `normalizeDomain` still produces a record whose stored
domain is that value trimmed and lower-cased verbatim, with the tld the text
after the last dot of it — so stored domains need not be syntactically valid
DNS names. -/
theorem nonvalid_domain_stored_verbatim (item : List (String × JsonVal))
    (k v : String) (pre post : List String)
    (hsplit : domainFieldCandidates = pre ++ k :: post)
    (hpre : ∀ k2 ∈ pre, candidateHit item k2 = none)
    (hlook : jlookup item k = some (.str v))
    (hre : findDomainInText v = none)
    (hdot : (jsLower (jsTrim v)).data.contains '.' = true) :
    ∃ rec : MarketplaceDomain,
      normalizeDomain (.obj item) = some rec ∧
        rec.domain = jsLower (jsTrim v) ∧
        rec.tld = ((jsSplitDot (jsLower (jsTrim v))).getLast?).getD "" := by
  have hhit : candidateHit item k = some (jsLower (jsTrim v)) := by
    simp only [candidateHit, hlook, hre, Option.getD_none, hdot, if_true]
  have hext : extractDomainField item = some (jsLower (jsTrim v)) := by
    simp only [extractDomainField, hsplit, findSome?_append_none _ _ _ hpre,
      List.findSome?_cons, hhit]
  refine ⟨normalizedRecOf item (jsLower (jsTrim v)), ?_, ?_, ?_⟩
  · rw [normalizeDomain_obj, hext]
    rfl
  · show jsLower (jsTrim (jsLower (jsTrim v))) = jsLower (jsTrim v)
    exact jsLower_jsTrim_collapse v
  · show ((jsSplitDot (jsLower (jsTrim (jsLower (jsTrim v))))).getLast?).getD "" = _
    rw [jsLower_jsTrim_collapse v]

/-- Concrete run of `nonvalid_domain_stored_verbatim` on the row
`\x7b"domain": "Not..Valid."\x7d`: the regex finds no match, yet the stored
domain is `"not..valid."` (with empty tld after the trailing dot). -/
theorem nonvalid_domain_stored_verbatim_witness :
    findDomainInText "Not..Valid." = none ∧
      ∃ rec : MarketplaceDomain,
        normalizeDomain (.obj [("domain", .str "Not..Valid.")]) = some rec ∧
          rec.domain = jsLower (jsTrim "Not..Valid.") ∧
          rec.tld = ((jsSplitDot (jsLower (jsTrim "Not..Valid."))).getLast?).getD "" := by
  refine ⟨rfl, ?_⟩
  exact nonvalid_domain_stored_verbatim [("domain", .str "Not..Valid.")] "domain"
    "Not..Valid." []
    ["dominio", "domain_name", "nombre_dominio", "name", "hostname", "host", "fqdn",
      "url", "website", "com_domain"]
    rfl (fun k2 hk2 => absurd hk2 (by simp)) rfl rfl rfl

end DomainSniper
